import Mathlib

/-!
Verification of the spec-lock subsystem (`scripts/spec_lock.py`).

The Python code is shallowly embedded: Python `str` values become `List Char`
(`Text`), raised exceptions become `Except Text` results, the process
environment and the filesystem/network world become explicit oracle
parameters.  Functions keep the names of the Python functions they embed.
-/

namespace SpecLock

/-- Python strings are modelled as lists of Unicode scalar values. -/
abbrev Text := List Char

/-- Convenience conversion from a Lean string literal to `Text`. -/
def txt (s : String) : Text := s.toList

instance {ε α : Type} [DecidableEq ε] [DecidableEq α] : DecidableEq (Except ε α)
  | .error a, .error b =>
    if h : a = b then .isTrue (by rw [h]) else .isFalse (by intro he; cases he; exact h rfl)
  | .error _, .ok _ => .isFalse (by intro h; cases h)
  | .ok _, .error _ => .isFalse (by intro h; cases h)
  | .ok a, .ok b =>
    if h : a = b then .isTrue (by rw [h]) else .isFalse (by intro he; cases he; exact h rfl)

/-- Python `text.replace(old, new)`: replace non-overlapping occurrences of
`old`, scanning left to right.  (All call sites in the source use a non-empty
`old`; the behaviour of Python `replace` with an empty `old` is not modelled.) -/
def pyReplace (old new : Text) : Text → Text
  | [] => []
  | c :: rest =>
    if old.isPrefixOf (c :: rest) then new ++ pyReplace old new (rest.drop (old.length - 1))
    else c :: pyReplace old new rest
termination_by t => t.length
decreasing_by
· simp only [List.length_drop, List.length_cons]; omega
· simp only [List.length_cons]; omega

/-- Source function `normalize_newlines`:
`text.replace("\r\n", "\n").replace("\r", "\n")`. -/
def normalize_newlines (text : Text) : Text :=
  pyReplace (txt "\r") (txt "\n") (pyReplace (txt "\r\n") (txt "\n") text)

/-- One-pass version of `normalize_newlines`: CRLF, bare CR and LF all map to
a single LF.  Used only as a proof vehicle; proved equal to
`normalize_newlines` below. -/
def toLF : Text → Text
  | [] => []
  | '\r' :: '\n' :: rest => '\n' :: toLF rest
  | '\r' :: rest => '\n' :: toLF rest
  | c :: rest => c :: toLF rest

/-- Formalisation of "convert every line ending of the text to the convention
`eol`", where a line ending of the input is `\r\n`, a bare `\r`, or `\n`.
This definition comes from the claim's wording (it is the transformation the
digest must be invariant under), not from the source. -/
def convertEOL (eol : Text) : Text → Text
  | [] => []
  | '\r' :: '\n' :: rest => eol ++ convertEOL eol rest
  | '\r' :: rest => eol ++ convertEOL eol rest
  | '\n' :: rest => eol ++ convertEOL eol rest
  | c :: rest => c :: convertEOL eol rest

/-- The whitespace characters stripped by Python `str.strip()` /
`str.rstrip()` with no argument. -/
def isPySpace (c : Char) : Bool :=
  (9 ≤ c.toNat && c.toNat ≤ 13) || (28 ≤ c.toNat && c.toNat ≤ 31) ||
  c.toNat == 32 || c.toNat == 0x85 || c.toNat == 0xa0 || c.toNat == 0x1680 ||
  (0x2000 ≤ c.toNat && c.toNat ≤ 0x200a) || c.toNat == 0x2028 ||
  c.toNat == 0x2029 || c.toNat == 0x202f || c.toNat == 0x205f || c.toNat == 0x3000

/-- Python `text.rstrip()`. -/
def pyRstrip (t : Text) : Text := (t.reverse.dropWhile isPySpace).reverse

/-- Python `text.strip()`. -/
def pyStrip (t : Text) : Text := pyRstrip (t.dropWhile isPySpace)

/-- UTF-8 encoding of one scalar value, as byte values. -/
def utf8EncodeChar (c : Char) : List Nat :=
  let n := c.toNat
  if n < 0x80 then [n]
  else if n < 0x800 then [0xc0 ||| (n >>> 6), 0x80 ||| (n &&& 0x3f)]
  else if n < 0x10000 then
    [0xe0 ||| (n >>> 12), 0x80 ||| ((n >>> 6) &&& 0x3f), 0x80 ||| (n &&& 0x3f)]
  else
    [0xf0 ||| (n >>> 18), 0x80 ||| ((n >>> 12) &&& 0x3f),
     0x80 ||| ((n >>> 6) &&& 0x3f), 0x80 ||| (n &&& 0x3f)]

/-- Python `text.encode("utf-8")`. -/
def utf8Encode (t : Text) : List Nat := t.foldr (fun c acc => utf8EncodeChar c ++ acc) []

/-- Truncation to a 32-bit word. -/
def w32 (n : Nat) : Nat := n % 4294967296

/-- Right rotation on 32 bits. -/
def rotr32 (n x : Nat) : Nat := w32 ((x >>> n) ||| (x <<< (32 - n)))

def shaCh (x y z : Nat) : Nat := (x &&& y) ^^^ ((x ^^^ 4294967295) &&& z)

def shaMaj (x y z : Nat) : Nat := (x &&& y) ^^^ (x &&& z) ^^^ (y &&& z)

def bigSigma0 (x : Nat) : Nat := rotr32 2 x ^^^ rotr32 13 x ^^^ rotr32 22 x

def bigSigma1 (x : Nat) : Nat := rotr32 6 x ^^^ rotr32 11 x ^^^ rotr32 25 x

def smallSigma0 (x : Nat) : Nat := rotr32 7 x ^^^ rotr32 18 x ^^^ (x >>> 3)

def smallSigma1 (x : Nat) : Nat := rotr32 17 x ^^^ rotr32 19 x ^^^ (x >>> 10)

/-- Big-endian byte rendering of `v` on `n` bytes. -/
def beBytes (n v : Nat) : List Nat :=
  (List.range n).map (fun i => (v >>> (8 * (n - 1 - i))) % 256)

/-- SHA-256 message padding. -/
def sha256Pad (msg : List Nat) : List Nat :=
  let padZeros := (55 + 64 - msg.length % 64) % 64
  msg ++ [128] ++ List.replicate padZeros 0 ++ beBytes 8 (msg.length * 8)

/-- Split the padded message into 64-byte blocks. -/
def chunks64 : List Nat → List (List Nat)
  | [] => []
  | c :: rest => ((c :: rest).take 64) :: chunks64 (rest.drop 63)
termination_by l => l.length
decreasing_by simp only [List.length_drop, List.length_cons]; omega

/-- Pack bytes into big-endian 32-bit words. -/
def toWords : List Nat → List Nat
  | b0 :: b1 :: b2 :: b3 :: rest => (((b0 * 256 + b1) * 256 + b2) * 256 + b3) :: toWords rest
  | _ => []

/-- Message-schedule extension; `rev` holds the words generated so far, most
recent first. Produces the full reversed schedule after `n` more words. -/
def shaExtendGo : Nat → List Nat → List Nat
  | 0, rev => rev
  | n + 1, rev =>
    let next := w32 (rev.getD 15 0 + smallSigma0 (rev.getD 14 0) +
      rev.getD 6 0 + smallSigma1 (rev.getD 1 0))
    shaExtendGo n (next :: rev)

def shaK : List Nat :=
  [1116352408, 1899447441, 3049323471, 3921009573, 961987163, 1508970993,
   2453635748, 2870763221, 3624381080, 310598401, 607225278, 1426881987,
   1925078388, 2162078206, 2614888103, 3248222580, 3835390401, 4022224774,
   264347078, 604807628, 770255983, 1249150122, 1555081692, 1996064986,
   2554220882, 2821834349, 2952996808, 3210313671, 3336571891, 3584528711,
   113926993, 338241895, 666307205, 773529912, 1294757372, 1396182291,
   1695183700, 1986661051, 2177026350, 2456956037, 2730485921, 2820302411,
   3259730800, 3345764771, 3516065817, 3600352804, 4094571909, 275423344,
   430227734, 506948616, 659060556, 883997877, 958139571, 1322822218,
   1537002063, 1747873779, 1955562222, 2024104815, 2227730452, 2361852424,
   2428436474, 2756734187, 3204031479, 3329325298]

def shaH0 : List Nat :=
  [1779033703, 3144134277, 1013904242, 2773480762,
   1359893119, 2600822924, 528734635, 1541459225]

/-- One round of the SHA-256 compression function. -/
def shaRound (st : List Nat) (kw : Nat × Nat) : List Nat :=
  match st with
  | [a, b, c, d, e, f, g, hh] =>
    let t1 := w32 (hh + bigSigma1 e + shaCh e f g + kw.1 + kw.2)
    let t2 := w32 (bigSigma0 a + shaMaj a b c)
    [w32 (t1 + t2), a, b, c, w32 (d + t1), e, f, g]
  | other => other

/-- SHA-256 of a byte sequence, as a byte sequence. -/
def sha256Bytes (msg : List Nat) : List Nat :=
  let final := (chunks64 (sha256Pad msg)).foldl
    (fun h block =>
      let ws := (shaExtendGo 48 (toWords block).reverse).reverse
      let st := (shaK.zip ws).foldl shaRound h
      List.zipWith (fun x y => w32 (x + y)) h st)
    shaH0
  final.foldr (fun h acc => beBytes 4 h ++ acc) []

def hexDigitChar (n : Nat) : Char :=
  if n < 10 then Char.ofNat (48 + n) else Char.ofNat (87 + n)

/-- Lowercase hexadecimal rendering of a byte sequence. -/
def bytesToHex (bs : List Nat) : Text :=
  bs.foldr (fun b acc => hexDigitChar (b / 16) :: hexDigitChar (b % 16) :: acc) []

/-- Source function `sha256_normalized_text`:
`hashlib.sha256(normalize_newlines(text).encode("utf-8")).hexdigest()`. -/
def sha256_normalized_text (text : Text) : Text :=
  bytesToHex (sha256Bytes (utf8Encode (normalize_newlines text)))

/-- Parsed JSON values, as produced by Python `json.loads`.  JSON numbers are
modelled as integers (no field relevant to the claims holds a float). -/
inductive JValue where
  | str : Text → JValue
  | num : Int → JValue
  | bool : Bool → JValue
  | null : JValue
  | arr : List JValue → JValue
  | obj : List (Text × JValue) → JValue

/-- A Python dict with string keys, as an association list (first binding
wins, mirroring unique-key dicts from `json.loads`). -/
abbrev JObj := List (Text × JValue)

/-- Python `key in data` / `data.get(key)` lookup. -/
def jlookup : JObj → Text → Option JValue
  | [], _ => none
  | (k, v) :: rest, key => if k = key then some v else jlookup rest key

/-- Python `", ".join(parts)`. -/
def pyJoin (sep : Text) : List Text → Text
  | [] => []
  | [x] => x
  | x :: rest => x ++ sep ++ pyJoin sep rest

/-- Escape one character the way Python `repr` renders it inside a string
literal quoted by `q`. -/
def pyReprEscapeChar (q c : Char) : Text :=
  if c = '\\' then ['\\', '\\']
  else if c = q then ['\\', q]
  else if c = '\n' then ['\\', 'n']
  else if c = '\r' then ['\\', 'r']
  else if c = '\t' then ['\\', 't']
  else if c.toNat < 32 || c.toNat == 127 then
    ['\\', 'x', hexDigitChar (c.toNat / 16), hexDigitChar (c.toNat % 16)]
  else [c]

/-- Python `repr` of a string. -/
def pyReprStr (s : Text) : Text :=
  let q : Char := if s.contains '\'' && !s.contains '"' then '"' else '\''
  q :: (s.foldr (fun c acc => pyReprEscapeChar q c ++ acc) [q])

mutual

/-- Python `repr(value)` for parsed-JSON values. -/
def pyRepr : JValue → Text
  | .str s => pyReprStr s
  | .num n => (toString n).toList
  | .bool b => if b then txt "True" else txt "False"
  | .null => txt "None"
  | .arr xs => txt "[" ++ pyJoin (txt ", ") (pyReprList xs) ++ txt "]"
  | .obj fs => '\x7b' :: (pyJoin (txt ", ") (pyReprFields fs) ++ ['\x7d'])

def pyReprList : List JValue → List Text
  | [] => []
  | v :: rest => pyRepr v :: pyReprList rest

def pyReprFields : List (Text × JValue) → List Text
  | [] => []
  | (k, v) :: rest => (pyReprStr k ++ txt ": " ++ pyRepr v) :: pyReprFields rest

end

/-- Python `str(value)` for parsed-JSON values. -/
def pyStr : JValue → Text
  | .str s => s
  | v => pyRepr v

def requiredManifestKeys : List Text :=
  [txt "epic", txt "infra_repo", txt "infra_sha", txt "pr_map", txt "canonical_files"]

/-- Truthiness of `path_item.strip()` for a manifest entry: the entry must be
a string with non-whitespace content. -/
def isNonemptyStr : JValue → Bool
  | .str s => !(pyStrip s).isEmpty
  | _ => false

/-- Source function `load_manifest`, after `json.loads`: validates the parsed
manifest object and returns it unchanged.  `Except.error` models the raised
`ValueError` with its message. -/
def load_manifest (data : JObj) : Except Text JObj :=
  let missing := requiredManifestKeys.filter (fun k => (jlookup data k).isNone)
  if missing.isEmpty then
    match jlookup data (txt "canonical_files") with
    | some (JValue.arr files) =>
      if files.isEmpty then .error (txt "Manifest canonical_files must be a non-empty array")
      else if files.all isNonemptyStr then
        match jlookup data (txt "pr_map") with
        | some (JValue.obj _) => .ok data
        | _ => .error (txt "Manifest pr_map must be an object")
      else .error (txt "Manifest canonical_files entries must be non-empty strings")
    | _ => .error (txt "Manifest canonical_files must be a non-empty array")
  else .error (txt "Manifest missing required keys: " ++ pyJoin (txt ", ") missing)

@[ext]
structure Mismatch where
  path : Text
  expected : Text
  actual : Text
deriving DecidableEq

structure VerificationResult where
  ok : Bool
  mismatches : List Mismatch
deriving DecidableEq

/-- The loop body of `generate_spec_lock`: one canonical entry per manifest
path, in manifest order; a loader failure aborts the whole run (the Python
exception propagates). -/
def generateEntries (content_loader : Text → Except Text Text) :
    List JValue → Except Text (List JValue)
  | [] => .ok []
  | relpath :: rest =>
    match content_loader (pyStr relpath) with
    | .error e => .error e
    | .ok text =>
      match generateEntries content_loader rest with
      | .error e => .error e
      | .ok entries =>
        .ok (JValue.obj [(txt "path", JValue.str (pyStr relpath)),
                         (txt "sha256", JValue.str (sha256_normalized_text text))] :: entries)

/-- Source function `generate_spec_lock`.  Here `generated_at` is passed
explicitly (its `None` default reads the wall clock, an external effect); the
content loader's exceptions propagate.  Python `KeyError` on a missing
manifest key and `TypeError` on a non-list `canonical_files` are modelled as
errors. -/
def generate_spec_lock (manifest : JObj) (content_loader : Text → Except Text Text)
    (generated_at : Text) (generator_name generator_version : Text) : Except Text JObj :=
  match (match jlookup manifest (txt "canonical_files") with
         | some (JValue.arr files) => generateEntries content_loader files
         | some _ => Except.error (txt "TypeError: canonical_files is not iterable")
         | none => Except.error (txt "KeyError: canonical_files")) with
  | .error e => .error e
  | .ok entries =>
    match jlookup manifest (txt "epic") with
    | none => .error (txt "KeyError: epic")
    | some vEpic =>
      match jlookup manifest (txt "infra_repo") with
      | none => .error (txt "KeyError: infra_repo")
      | some vRepo =>
        match jlookup manifest (txt "infra_sha") with
        | none => .error (txt "KeyError: infra_sha")
        | some vSha =>
          .ok [(txt "schema_version", JValue.num 1),
               (txt "epic", JValue.str (pyStr vEpic)),
               (txt "generated_at", JValue.str generated_at),
               (txt "infra_repo", JValue.str (pyStr vRepo)),
               (txt "infra_sha", JValue.str (pyStr vSha)),
               (txt "canonical_files", JValue.arr entries),
               (txt "generator", JValue.obj [(txt "name", JValue.str generator_name),
                                             (txt "version", JValue.str generator_version)])]

/-- The error placeholder recorded in a mismatch's `actual` field when
retrieval fails: `f"<error: {exc}>"`. -/
def errPlaceholder (exc : Text) : Text := txt "<error: " ++ exc ++ txt ">"

/-- The loop of `verify_spec_lock`: a loader failure for one entry is caught
and recorded as a mismatch whose `actual` holds the error placeholder, and
the remaining entries are still checked.  A non-dict entry makes Python raise
(`entry.get` is outside the `try`), modelled as `Except.error`. -/
def verifyEntries (content_loader : Text → Except Text Text) :
    List JValue → Except Text (List Mismatch)
  | [] => .ok []
  | JValue.obj fields :: rest =>
    let relpath := pyStr ((jlookup fields (txt "path")).getD (JValue.str []))
    let expected := pyStr ((jlookup fields (txt "sha256")).getD (JValue.str []))
    (match content_loader relpath with
     | .error exc =>
       (match verifyEntries content_loader rest with
        | .error e => .error e
        | .ok ms => .ok (⟨relpath, expected, errPlaceholder exc⟩ :: ms))
     | .ok text =>
       let actual := sha256_normalized_text text
       if actual = expected then verifyEntries content_loader rest
       else
         match verifyEntries content_loader rest with
         | .error e => .error e
         | .ok ms => .ok (⟨relpath, expected, actual⟩ :: ms))
  | _ :: _ => .error (txt "AttributeError: lock entry is not a dict")

/-- The path recorded in one lock entry: `str(entry.get("path", ""))`. -/
def entryPath (entry : JValue) : Text :=
  match entry with
  | JValue.obj fields => pyStr ((jlookup fields (txt "path")).getD (JValue.str []))
  | _ => []

/-- The digest recorded in one lock entry: `str(entry.get("sha256", ""))`. -/
def entryExpected (entry : JValue) : Text :=
  match entry with
  | JValue.obj fields => pyStr ((jlookup fields (txt "sha256")).getD (JValue.str []))
  | _ => []

/-- The outcome of checking a single well-formed lock entry: `none` when the
loaded content's digest matches, `some` mismatch otherwise (with the error
placeholder as `actual` when retrieval fails). -/
def entryMismatch (content_loader : Text → Except Text Text) (entry : JValue) : Option Mismatch :=
  match entry with
  | JValue.obj fields =>
    let relpath := pyStr ((jlookup fields (txt "path")).getD (JValue.str []))
    let expected := pyStr ((jlookup fields (txt "sha256")).getD (JValue.str []))
    (match content_loader relpath with
     | .error exc => some ⟨relpath, expected, errPlaceholder exc⟩
     | .ok text =>
       if sha256_normalized_text text = expected then none
       else some ⟨relpath, expected, sha256_normalized_text text⟩)
  | _ => none

/-- Source function `verify_spec_lock`: `lock_data.get("canonical_files", [])`
is walked entry by entry; `ok` is true iff the mismatch list is empty.
Iterating a non-list `canonical_files` value raises in Python, modelled as
`Except.error`. -/
def verify_spec_lock (lock_data : JObj) (content_loader : Text → Except Text Text) :
    Except Text VerificationResult :=
  match (jlookup lock_data (txt "canonical_files")).getD (JValue.arr []) with
  | JValue.arr entries =>
    (verifyEntries content_loader entries).map (fun ms => ⟨ms.isEmpty, ms⟩)
  | _ => .error (txt "TypeError: canonical_files is not a list of dicts")

/-- Source function `decide_exit_code`; `env` models `os.getenv`. -/
def decide_exit_code (env : Text → Option Text) (result : VerificationResult) : Nat × Text :=
  if result.ok then (0, txt "Spec verification PASS.")
  else if env (txt "ALLOW_SPEC_DRIFT") = some (txt "1") then
    (0, txt "Spec drift detected, but ALLOW_SPEC_DRIFT=1 so continuing with warning.")
  else (1, txt "Spec drift detected. Set ALLOW_SPEC_DRIFT=1 to bypass.")

/-- The external world seen by the content loader: the filesystem oracles
used by the local-override path, and the two network strategies
(`fetch_via_gh_api`, `fetch_via_raw_github`) as abstract oracles taking
`(infra_repo, relpath, infra_sha)`. -/
structure World where
  pathExists : Text → Bool
  isDir : Text → Bool
  readText : Text → Except Text Text
  ghFetch : Text → Text → Text → Except Text Text
  rawFetch : Text → Text → Text → Except Text Text

def dropTrailingSlashes (t : Text) : Text := (t.reverse.dropWhile (· == '/')).reverse

/-- Join `Path(root) / relpath` for POSIX paths: an absolute `relpath` replaces the
root, otherwise the two are joined with a single separator. -/
def pathJoin (root rel : Text) : Text :=
  if rel.head? = some '/' then rel else dropTrailingSlashes root ++ '/' :: rel

/-- Source function `read_local_canonical_text`. -/
def read_local_canonical_text (w : World) (infra_docs_root relpath : Text) : Except Text Text :=
  let path := pathJoin infra_docs_root relpath
  if w.pathExists path then w.readText path
  else .error (txt "Canonical file not found at " ++ path)

/-- Truthiness of the `infra_docs_root` optional string. -/
def pyTruthy : Option Text → Bool
  | none => false
  | some s => !s.isEmpty

/-- Source function `load_canonical_text`: with a truthy local root the local
file is the sole source (an invalid root or missing file is a hard failure);
otherwise the gh-api strategy is tried, then the raw fetch, and a combined
error reports both causes. -/
def load_canonical_text (w : World) (infra_repo infra_sha relpath : Text)
    (infra_docs_root : Option Text) : Except Text Text :=
  if pyTruthy infra_docs_root then
    let root := infra_docs_root.getD []
    if w.pathExists root && w.isDir root then read_local_canonical_text w root relpath
    else .error (txt "INFRA_DOCS_ROOT does not point to a valid directory: " ++ root)
  else
    match w.ghFetch infra_repo relpath infra_sha with
    | .ok text => .ok text
    | .error ghErr =>
      match w.rawFetch infra_repo relpath infra_sha with
      | .ok text => .ok text
      | .error rawErr =>
        .error (txt "gh fetch failed (" ++ ghErr ++ txt "); raw fetch failed (" ++ rawErr ++ txt ")")

def beginSentinel (tag : Text) : Text := txt "<!-- BEGIN GENERATED: " ++ tag ++ txt " -->"

def endSentinel (tag : Text) : Text := txt "<!-- END GENERATED: " ++ tag ++ txt " -->"

/-- Index of the leftmost occurrence of `needle` in the haystack, if any. -/
def findSub (needle : Text) : Text → Option Nat
  | [] => if needle.isEmpty then some 0 else none
  | c :: rest =>
    if needle.isPrefixOf (c :: rest) then some 0 else (findSub needle rest).map (· + 1)

/-- The match of `re.compile(re.escape(b) + ".*?" + re.escape(e), re.DOTALL)`
on `doc`: the leftmost occurrence of `b`, paired (lazily) with the first
occurrence of `e` starting at or after its end.  Returns the half-open match
span `(start, stop)`. -/
def findRegion (b e doc : Text) : Option (Nat × Nat) :=
  match findSub b doc with
  | none => none
  | some i =>
    match findSub e (doc.drop (i + b.length)) with
    | none => none
    | some k => some (i, i + b.length + k + e.length)

/-- An item of a parsed `re.sub` replacement template: a literal chunk, or a
reference to group 0 (the whole match; the patterns built by
`upsert_generated_block` contain no other group). -/
inductive TItem where
  | lit : Text → TItem
  | group0 : TItem

def isAsciiLetterCh (c : Char) : Bool := ('a' ≤ c && c ≤ 'z') || ('A' ≤ c && c ≤ 'Z')

def isDigitCh (c : Char) : Bool := '0' ≤ c && c ≤ '9'

def isOctCh (c : Char) : Bool := '0' ≤ c && c ≤ '7'

def dVal (c : Char) : Nat := c.toNat - 48

/-- The simple escapes recognised in a replacement template
(`re._parser.ESCAPES` restricted to template use). -/
def escMap (c : Char) : Option Char :=
  if c = 'a' then some (Char.ofNat 7)
  else if c = 'b' then some (Char.ofNat 8)
  else if c = 'f' then some (Char.ofNat 12)
  else if c = 'n' then some '\n'
  else if c = 'r' then some '\r'
  else if c = 't' then some '\t'
  else if c = 'v' then some (Char.ofNat 11)
  else if c = '\\' then some '\\'
  else none

def isIdentStartCh (c : Char) : Bool := isAsciiLetterCh c || c = '_'

def isIdentContCh (c : Char) : Bool := isIdentStartCh c || isDigitCh c

/-- Python `name.isidentifier()` (ASCII identifiers; the non-ASCII identifier
characters accepted by Python do not occur in any input considered here). -/
def isPyIdentifier : Text → Bool
  | [] => false
  | c :: rest => isIdentStartCh c && rest.all isIdentContCh

def pyIntDigitsTail : Text → Bool
  | [] => true
  | '_' :: c :: rest => isDigitCh c && pyIntDigitsTail rest
  | c :: rest => isDigitCh c && pyIntDigitsTail rest

/-- A non-empty ASCII digit string with optional single underscores between
digits, as accepted by Python `int`. -/
def pyIntDigits : Text → Bool
  | [] => false
  | c :: rest => isDigitCh c && pyIntDigitsTail rest

def pyIntVal (s : Text) : Nat :=
  (s.filter (fun c => c ≠ '_')).foldl (fun a c => a * 10 + dVal c) 0

/-- Python `int(name)` for a decimal string: optional surrounding whitespace,
optional sign, digits. -/
def parsePyInt (s : Text) : Option Int :=
  let t := ((s.dropWhile isPySpace).reverse.dropWhile isPySpace).reverse
  match t with
  | '+' :: rest => if pyIntDigits rest then some (Int.ofNat (pyIntVal rest)) else none
  | '-' :: rest => if pyIntDigits rest then some (-(Int.ofNat (pyIntVal rest))) else none
  | rest => if pyIntDigits rest then some (Int.ofNat (pyIntVal rest)) else none

/-- Split a text at its first `'>'`: the part before it and the number of
characters consumed including the `'>'` (the tokenizer's `getuntil(">")`),
or `none` when there is no `'>'`. -/
def splitGtCount : Text → Option (Text × Nat)
  | [] => none
  | c :: rest =>
    if c = '>' then some ([], 1)
    else (splitGtCount rest).map (fun p => (c :: p.1, p.2 + 1))

/-- The handling of one backslash escape in a CPython `re` replacement
template (`re._parser.parse_template`) for a pattern with zero capture
groups: returns the parsed item together with the number of characters
consumed after the backslash.  `\g<0>` (and `\g<name>` forms) are group
references; `\1`..`\99` are group references (always invalid here, the
pattern has no groups) unless they form a three-digit octal escape; `\0`
starts an octal escape; unknown ASCII-letter escapes and references to
non-existent groups raise. -/
def parseEscapeStep : Text → Except Text (TItem × Nat)
  | [] => .error (txt "bad escape (end of pattern)")
  | 'g' :: rest2 =>
    (match rest2 with
     | '<' :: rest3 =>
       (match splitGtCount rest3 with
        | some (name, cnt) =>
          if name.isEmpty then .error (txt "missing group name")
          else if isPyIdentifier name then .error (txt "unknown group name")
          else
            (match parsePyInt name with
             | some n =>
               if n < 0 then .error (txt "bad character in group name")
               else if n = 0 then .ok (TItem.group0, 2 + cnt)
               else .error (txt "invalid group reference")
             | none => .error (txt "bad character in group name"))
        | none => .error (txt "missing >, unterminated name"))
     | _ => .error (txt "missing <"))
  | '0' :: rest2 =>
    .ok (TItem.lit [Char.ofNat
        ((((rest2.takeWhile isOctCh).take 2).foldl (fun a c => a * 8 + dVal c) 0) % 256)],
      1 + ((rest2.takeWhile isOctCh).take 2).length)
  | c :: rest2 =>
    if isDigitCh c then
      match rest2 with
      | c2 :: rest3 =>
        if isDigitCh c2 then
          if isOctCh c && isOctCh c2 then
            match rest3 with
            | c3 :: _ =>
              if isOctCh c3 then
                if dVal c * 64 + dVal c2 * 8 + dVal c3 > 255 then
                  .error (txt "octal escape value outside of range 0-0o377")
                else .ok (TItem.lit [Char.ofNat (dVal c * 64 + dVal c2 * 8 + dVal c3)], 3)
              else .error (txt "invalid group reference")
            | [] => .error (txt "invalid group reference")
          else .error (txt "invalid group reference")
        else .error (txt "invalid group reference")
      | [] => .error (txt "invalid group reference")
    else
      match escMap c with
      | some ch => .ok (TItem.lit [ch], 1)
      | none =>
        if isAsciiLetterCh c then .error (txt "bad escape")
        else .ok (TItem.lit ['\\', c], 1)

/-- CPython `re._parser.parse_template` for a pattern with zero capture
groups, as invoked by `pattern.sub(rendered_block, ...)`: backslash escapes
in the replacement are processed by `parseEscapeStep`, other characters are
literal. -/
def parse_template : Text → Except Text (List TItem)
  | [] => .ok []
  | '\\' :: rest =>
    (match parseEscapeStep rest with
     | .error e => .error e
     | .ok (item, n) => (parse_template (rest.drop n)).map (item :: ·))
  | c :: rest => (parse_template rest).map (TItem.lit [c] :: ·)
termination_by t => t.length
decreasing_by
all_goals simp only [List.length_cons, List.length_drop]
all_goals omega

/-- Expansion of a parsed replacement template against the matched text. -/
def expandTemplate (items : List TItem) (matched : Text) : Text :=
  items.foldr (fun it acc => (match it with | .lit s => s | .group0 => matched) ++ acc) []

/-- The slice `doc[i:j]`. -/
def extractSlice (doc : Text) (i j : Nat) : Text := (doc.drop i).take (j - i)

/-- Source function `upsert_generated_block`.  If the sentinel-delimited
pattern matches, `pattern.sub(rendered_block, document_text, count=1)`
replaces the first match with the expansion of `rendered_block` as a
replacement template (an invalid template raises, modelled as
`Except.error`); otherwise the block is appended after a blank line when the
document has non-whitespace content, and the result is the block plus a
newline when it does not. -/
def upsert_generated_block (document_text tag rendered_block : Text) : Except Text Text :=
  let b := beginSentinel tag
  let e := endSentinel tag
  match findRegion b e document_text with
  | some (i, j) =>
    (parse_template rendered_block).map
      (fun items =>
        document_text.take i ++ expandTemplate items (extractSlice document_text i j)
          ++ document_text.drop j)
  | none =>
    if !(pyStrip document_text).isEmpty then
      .ok (pyRstrip document_text ++ txt "\n\n" ++ rendered_block ++ txt "\n")
    else .ok (rendered_block ++ txt "\n")

/-! ### Lemmas about newline normalization -/

theorem pyReplace_cons_pos (old new : Text) (c : Char) (rest : Text)
    (h : old.isPrefixOf (c :: rest) = true) :
    pyReplace old new (c :: rest) = new ++ pyReplace old new (rest.drop (old.length - 1)) := by
  rw [pyReplace]
  simp [h]

theorem pyReplace_cons_neg (old new : Text) (c : Char) (rest : Text)
    (h : ¬ old.isPrefixOf (c :: rest) = true) :
    pyReplace old new (c :: rest) = c :: pyReplace old new rest := by
  rw [pyReplace]
  simp [h]

theorem txt_crlf : txt "\r\n" = ['\r', '\n'] := rfl

theorem txt_cr : txt "\r" = ['\r'] := rfl

theorem txt_lf : txt "\n" = ['\n'] := rfl

theorem pyReplace_nil (old new : Text) : pyReplace old new [] = [] := by
  rw [pyReplace]

theorem toLF_crlf (r : Text) : toLF ('\r' :: '\n' :: r) = '\n' :: toLF r := rfl

theorem toLF_cr (r : Text) (h : r.head? ≠ some '\n') : toLF ('\r' :: r) = '\n' :: toLF r := by
  rcases r with _ | ⟨c2, r2⟩
  · rfl
  · have hc2 : c2 ≠ '\n' := by simpa using h
    rw [toLF.eq_3 (c2 :: r2) (fun r1 hr1 => by injection hr1 with h1 _; exact hc2 h1)]

theorem toLF_cons_ne (c : Char) (r : Text) (h : c ≠ '\r') : toLF (c :: r) = c :: toLF r := by
  rw [toLF.eq_4 c r (fun _ h1 _ => h h1) (fun h1 => h h1)]

theorem repCRLF_cons_crlf (rest : Text) :
    pyReplace ['\r', '\n'] ['\n'] ('\r' :: '\n' :: rest)
      = '\n' :: pyReplace ['\r', '\n'] ['\n'] rest := by
  rw [pyReplace_cons_pos]
  · rfl
  · simp [List.isPrefixOf]

theorem repCRLF_cons_necr (c : Char) (rest : Text) (h : c ≠ '\r') :
    pyReplace ['\r', '\n'] ['\n'] (c :: rest) = c :: pyReplace ['\r', '\n'] ['\n'] rest := by
  rw [pyReplace_cons_neg]
  simp only [List.isPrefixOf, Bool.and_eq_true, beq_iff_eq]
  rintro ⟨h1, -⟩
  exact h h1.symm

theorem repCRLF_cons_cr_ne (rest : Text) (h : rest.head? ≠ some '\n') :
    pyReplace ['\r', '\n'] ['\n'] ('\r' :: rest) = '\r' :: pyReplace ['\r', '\n'] ['\n'] rest := by
  rw [pyReplace_cons_neg]
  rcases rest with _ | ⟨c2, r2⟩
  · simp [List.isPrefixOf]
  · have hc2 : c2 ≠ '\n' := by simpa using h
    simp only [List.isPrefixOf, Bool.and_eq_true, beq_iff_eq]
    rintro ⟨-, h2, -⟩
    exact hc2 h2.symm

theorem repCR_cons_cr (rest : Text) :
    pyReplace ['\r'] ['\n'] ('\r' :: rest) = '\n' :: pyReplace ['\r'] ['\n'] rest := by
  rw [pyReplace_cons_pos]
  · rfl
  · simp [List.isPrefixOf]

theorem repCR_cons_ne (c : Char) (rest : Text) (h : c ≠ '\r') :
    pyReplace ['\r'] ['\n'] (c :: rest) = c :: pyReplace ['\r'] ['\n'] rest := by
  rw [pyReplace_cons_neg]
  simp only [List.isPrefixOf, Bool.and_eq_true, beq_iff_eq]
  rintro ⟨h1, -⟩
  exact h h1.symm

/-- Newline normalization is the one-pass CRLF/CR-to-LF map. -/
theorem normalize_newlines_eq_toLF (t : Text) : normalize_newlines t = toLF t := by
  have htxt : ∀ u : Text, normalize_newlines u
      = pyReplace ['\r'] ['\n'] (pyReplace ['\r', '\n'] ['\n'] u) := fun _ => rfl
  induction t using toLF.induct with
  | case1 => rw [htxt, pyReplace_nil, pyReplace_nil, toLF.eq_1]
  | case2 rest ih =>
    rw [htxt] at ih ⊢
    rw [repCRLF_cons_crlf, repCR_cons_ne _ _ (by decide), ih, toLF_crlf]
  | case3 rest h ih =>
    have hhead : rest.head? ≠ some '\n' := by
      rcases rest with _ | ⟨c2, r2⟩
      · simp
      · simp only [List.head?, ne_eq, Option.some.injEq]
        intro hc
        exact h r2 (by rw [hc])
    rw [htxt] at ih ⊢
    rw [repCRLF_cons_cr_ne _ hhead, repCR_cons_cr, ih, toLF_cr _ hhead]
  | case4 c rest h1 h2 ih =>
    have hc : c ≠ '\r' := fun hh => h2 hh
    rw [htxt] at ih ⊢
    rw [repCRLF_cons_necr _ _ hc, repCR_cons_ne _ _ hc, ih, toLF_cons_ne _ _ hc]

/-- Lemma: `toLF` is idempotent. -/
theorem toLF_toLF (t : Text) : toLF (toLF t) = toLF t := by
  induction t using toLF.induct with
  | case1 => rfl
  | case2 rest ih =>
    rw [toLF_crlf, toLF_cons_ne, ih]
    decide
  | case3 rest h ih =>
    rw [toLF_cr, toLF_cons_ne, ih]
    · decide
    · rcases rest with _ | ⟨c2, r2⟩
      · simp
      · simp only [List.head?, ne_eq, Option.some.injEq]
        intro hc
        exact h r2 (by rw [hc])
  | case4 c rest h1 h2 ih =>
    have hc : c ≠ '\r' := fun hh => h2 hh
    rw [toLF_cons_ne _ _ hc, toLF_cons_ne _ _ hc, ih]

theorem convertEOL_crlf (eol rest : Text) :
    convertEOL eol ('\r' :: '\n' :: rest) = eol ++ convertEOL eol rest := rfl

theorem convertEOL_lf (eol rest : Text) :
    convertEOL eol ('\n' :: rest) = eol ++ convertEOL eol rest := rfl

theorem convertEOL_cr (eol : Text) (rest : Text) (h : rest.head? ≠ some '\n') :
    convertEOL eol ('\r' :: rest) = eol ++ convertEOL eol rest := by
  rcases rest with _ | ⟨c2, r2⟩
  · rfl
  · have hc2 : c2 ≠ '\n' := by simpa using h
    rw [convertEOL.eq_3 eol (c2 :: r2) (fun r1 hr1 => by injection hr1 with h1 _; exact hc2 h1)]

theorem convertEOL_other (eol : Text) (c : Char) (rest : Text) (h1 : c ≠ '\r') (h2 : c ≠ '\n') :
    convertEOL eol (c :: rest) = c :: convertEOL eol rest := by
  rw [convertEOL.eq_5 eol c rest (fun _ hc _ => h1 hc) (fun hc => h1 hc) (fun hc => h2 hc)]

theorem head_ne_of_not_mem (X : Text) (c : Char) (h : c ∉ X) : X.head? ≠ some c := by
  rcases X with _ | ⟨x, xs⟩
  · simp
  · simp only [List.head?, ne_eq, Option.some.injEq]
    intro hx
    exact h (by rw [← hx]; exact List.mem_cons_self x xs)

theorem convertCR_no_lf (t : Text) : '\n' ∉ convertEOL ['\r'] t := by
  induction t using toLF.induct with
  | case1 => simp [convertEOL]
  | case2 rest ih =>
    rw [convertEOL_crlf]
    simp only [List.cons_append, List.nil_append, List.mem_cons]
    rintro (h | h)
    · cases h
    · exact ih h
  | case3 rest h ih =>
    have hhead : rest.head? ≠ some '\n' := by
      rcases rest with _ | ⟨c2, r2⟩
      · simp
      · simp only [List.head?, ne_eq, Option.some.injEq]
        intro hc
        exact h r2 (by rw [hc])
    rw [convertEOL_cr _ _ hhead]
    simp only [List.cons_append, List.nil_append, List.mem_cons]
    rintro (hh | hh)
    · cases hh
    · exact ih hh
  | case4 c rest h1 h2 ih =>
    have hc : c ≠ '\r' := fun hh => h2 hh
    by_cases hn : c = '\n'
    · subst hn
      rw [convertEOL_lf]
      simp only [List.cons_append, List.nil_append, List.mem_cons]
      rintro (hh | hh)
      · cases hh
      · exact ih hh
    · rw [convertEOL_other _ _ _ hc hn]
      simp only [List.mem_cons]
      rintro (hh | hh)
      · exact hn hh.symm
      · exact ih hh

theorem toLF_convert_lf (t : Text) : toLF (convertEOL ['\n'] t) = toLF t := by
  induction t using toLF.induct with
  | case1 => rfl
  | case2 rest ih =>
    rw [convertEOL_crlf, toLF_crlf]
    simp only [List.cons_append, List.nil_append]
    rw [toLF_cons_ne _ _ (by decide), ih]
  | case3 rest h ih =>
    have hhead : rest.head? ≠ some '\n' := by
      rcases rest with _ | ⟨c2, r2⟩
      · simp
      · simp only [List.head?, ne_eq, Option.some.injEq]
        intro hc
        exact h r2 (by rw [hc])
    rw [convertEOL_cr _ _ hhead, toLF_cr _ hhead]
    simp only [List.cons_append, List.nil_append]
    rw [toLF_cons_ne _ _ (by decide), ih]
  | case4 c rest h1 h2 ih =>
    have hc : c ≠ '\r' := fun hh => h2 hh
    by_cases hn : c = '\n'
    · subst hn
      rw [convertEOL_lf]
      simp only [List.cons_append, List.nil_append]
      rw [toLF_cons_ne _ _ (by decide), toLF_cons_ne _ _ (by decide), ih]
    · rw [convertEOL_other _ _ _ hc hn, toLF_cons_ne _ _ hc, toLF_cons_ne _ _ hc, ih]

theorem toLF_convert_crlf (t : Text) : toLF (convertEOL ['\r', '\n'] t) = toLF t := by
  induction t using toLF.induct with
  | case1 => rfl
  | case2 rest ih =>
    rw [convertEOL_crlf, toLF_crlf]
    simp only [List.cons_append, List.nil_append]
    rw [toLF_crlf, ih]
  | case3 rest h ih =>
    have hhead : rest.head? ≠ some '\n' := by
      rcases rest with _ | ⟨c2, r2⟩
      · simp
      · simp only [List.head?, ne_eq, Option.some.injEq]
        intro hc
        exact h r2 (by rw [hc])
    rw [convertEOL_cr _ _ hhead, toLF_cr _ hhead]
    simp only [List.cons_append, List.nil_append]
    rw [toLF_crlf, ih]
  | case4 c rest h1 h2 ih =>
    have hc : c ≠ '\r' := fun hh => h2 hh
    by_cases hn : c = '\n'
    · subst hn
      rw [convertEOL_lf]
      simp only [List.cons_append, List.nil_append]
      rw [toLF_crlf, toLF_cons_ne _ _ (by decide), ih]
    · rw [convertEOL_other _ _ _ hc hn, toLF_cons_ne _ _ hc, toLF_cons_ne _ _ hc, ih]

theorem toLF_convert_cr (t : Text) : toLF (convertEOL ['\r'] t) = toLF t := by
  induction t using toLF.induct with
  | case1 => rfl
  | case2 rest ih =>
    rw [convertEOL_crlf, toLF_crlf]
    simp only [List.cons_append, List.nil_append]
    rw [toLF_cr _ (head_ne_of_not_mem _ _ (convertCR_no_lf rest)), ih]
  | case3 rest h ih =>
    have hhead : rest.head? ≠ some '\n' := by
      rcases rest with _ | ⟨c2, r2⟩
      · simp
      · simp only [List.head?, ne_eq, Option.some.injEq]
        intro hc
        exact h r2 (by rw [hc])
    rw [convertEOL_cr _ _ hhead, toLF_cr _ hhead]
    simp only [List.cons_append, List.nil_append]
    rw [toLF_cr _ (head_ne_of_not_mem _ _ (convertCR_no_lf rest)), ih]
  | case4 c rest h1 h2 ih =>
    have hc : c ≠ '\r' := fun hh => h2 hh
    by_cases hn : c = '\n'
    · subst hn
      rw [convertEOL_lf]
      simp only [List.cons_append, List.nil_append]
      rw [toLF_cr _ (head_ne_of_not_mem _ _ (convertCR_no_lf rest)),
        toLF_cons_ne _ _ (by decide), ih]
    · rw [convertEOL_other _ _ _ hc hn, toLF_cons_ne _ _ hc, toLF_cons_ne _ _ hc, ih]

/-- C2: for every text `t`, `sha256_normalized_text t` equals
`sha256_normalized_text (normalize_newlines t)`, and the digest is unchanged
when every line ending of `t` is converted to any of the supported
conventions (`\r\n`, bare `\r`, or `\n`). -/
theorem c2_digest_newline_invariant (t : Text) :
    sha256_normalized_text t = sha256_normalized_text (normalize_newlines t) ∧
    ∀ eol : Text, eol = txt "\r\n" ∨ eol = txt "\r" ∨ eol = txt "\n" →
      sha256_normalized_text (convertEOL eol t) = sha256_normalized_text t := by
  constructor
  · unfold sha256_normalized_text
    rw [normalize_newlines_eq_toLF, normalize_newlines_eq_toLF, toLF_toLF]
  · rintro eol (rfl | rfl | rfl) <;> unfold sha256_normalized_text <;>
      rw [normalize_newlines_eq_toLF, normalize_newlines_eq_toLF]
    · rw [txt_crlf, toLF_convert_crlf]
    · rw [txt_cr, toLF_convert_cr]
    · rw [txt_lf, toLF_convert_lf]

/-- Witness for C2 at `t = "a\r\nb"` and the bare-`\r` convention. -/
theorem c2_digest_newline_invariant_witness :
    sha256_normalized_text (txt "a\r\nb")
        = sha256_normalized_text (normalize_newlines (txt "a\r\nb")) ∧
    sha256_normalized_text (convertEOL (txt "\r") (txt "a\r\nb"))
        = sha256_normalized_text (txt "a\r\nb") :=
  ⟨(c2_digest_newline_invariant (txt "a\r\nb")).1,
   (c2_digest_newline_invariant (txt "a\r\nb")).2 (txt "\r") (Or.inr (Or.inl rfl))⟩

/-! ### C10: verification of an absent or empty canonical_files list -/

/-- C10: a lock record whose `canonical_files` field is absent or an empty
sequence verifies with `ok = true` and no mismatches, for every loader. -/
theorem c10_empty_lock_verifies (lock_data : JObj) (content_loader : Text → Except Text Text)
    (h : jlookup lock_data (txt "canonical_files") = none ∨
         jlookup lock_data (txt "canonical_files") = some (JValue.arr [])) :
    verify_spec_lock lock_data content_loader = .ok ⟨true, []⟩ := by
  unfold verify_spec_lock
  rcases h with h | h <;> rw [h] <;> rfl

/-- Witness for C10: the empty lock object, against a loader that always
fails. -/
theorem c10_empty_lock_verifies_witness :
    verify_spec_lock [] (fun _ => .error (txt "unreachable")) = .ok ⟨true, []⟩ :=
  c10_empty_lock_verifies [] (fun _ => .error (txt "unreachable")) (Or.inl rfl)

/-! ### C8: exit policy -/

/-- C8: `decide_exit_code` returns code 0 whenever `ok` is true, regardless
of the environment; when `ok` is false it returns code 0 exactly when
`ALLOW_SPEC_DRIFT` holds the string `"1"`, and code 1 otherwise. -/
theorem c8_decide_exit_code (env : Text → Option Text) (result : VerificationResult) :
    (result.ok = true → (decide_exit_code env result).1 = 0) ∧
    (result.ok = false → env (txt "ALLOW_SPEC_DRIFT") = some (txt "1") →
      (decide_exit_code env result).1 = 0) ∧
    (result.ok = false → env (txt "ALLOW_SPEC_DRIFT") ≠ some (txt "1") →
      (decide_exit_code env result).1 = 1) := by
  refine ⟨fun h => ?_, fun h henv => ?_, fun h henv => ?_⟩
  · unfold decide_exit_code
    simp [h]
  · unfold decide_exit_code
    simp [h, henv]
  · unfold decide_exit_code
    simp [h, henv]

/-- Witness for C8: all three branches at concrete environments/results. -/
theorem c8_decide_exit_code_witness :
    (decide_exit_code (fun _ => none) ⟨true, []⟩).1 = 0 ∧
    (decide_exit_code (fun _ => some (txt "1")) ⟨false, []⟩).1 = 0 ∧
    (decide_exit_code (fun _ => some (txt "0")) ⟨false, []⟩).1 = 1 :=
  ⟨(c8_decide_exit_code (fun _ => none) ⟨true, []⟩).1 rfl,
   (c8_decide_exit_code (fun _ => some (txt "1")) ⟨false, []⟩).2.1 rfl rfl,
   (c8_decide_exit_code (fun _ => some (txt "0")) ⟨false, []⟩).2.2 rfl (by decide)⟩

/-! ### C7: the local-override path of the content loader -/

/-- C7: with a truthy local override root, `load_canonical_text` never
consults the network oracles (its result is unchanged under any change of
the `ghFetch`/`rawFetch` oracles and of the repo/commit coordinates); under
a valid root, a missing file is a hard failure, and a present file is
returned verbatim. -/
theorem c7_local_override (w w' : World) (repo sha repo' sha' rel : Text) (root? : Option Text)
    (htruthy : pyTruthy root? = true)
    (hfs : w.pathExists = w'.pathExists) (hdir : w.isDir = w'.isDir)
    (hread : w.readText = w'.readText) :
    load_canonical_text w repo sha rel root? = load_canonical_text w' repo' sha' rel root? ∧
    (∀ root, root? = some root → (w.pathExists root && w.isDir root) = true →
      ((w.pathExists (pathJoin root rel) = false →
        load_canonical_text w repo sha rel root?
          = .error (txt "Canonical file not found at " ++ pathJoin root rel)) ∧
       (∀ content, w.pathExists (pathJoin root rel) = true →
        w.readText (pathJoin root rel) = .ok content →
        load_canonical_text w repo sha rel root? = .ok content))) := by
  constructor
  · unfold load_canonical_text read_local_canonical_text
    rw [htruthy, hfs, hdir, hread]
    simp
  · rintro root rfl hvalid
    constructor
    · intro habsent
      unfold load_canonical_text read_local_canonical_text
      simp [htruthy, hvalid, habsent]
    · intro content hpresent hcontent
      unfold load_canonical_text read_local_canonical_text
      simp [htruthy, hvalid, hpresent, hcontent]

/-- Witness for C7: a world with one directory `/r` holding one file `f`,
compared against a world whose network oracles differ. -/
theorem c7_local_override_witness :
    (load_canonical_text
        ⟨fun p => p == txt "/r" || p == txt "/r/f", fun p => p == txt "/r",
         fun p => if p == txt "/r/f" then .ok (txt "C") else .error (txt "io"),
         fun _ _ _ => .error (txt "net"), fun _ _ _ => .error (txt "net")⟩
        (txt "o/r") (txt "s") (txt "f") (some (txt "/r"))
      = load_canonical_text
        ⟨fun p => p == txt "/r" || p == txt "/r/f", fun p => p == txt "/r",
         fun p => if p == txt "/r/f" then .ok (txt "C") else .error (txt "io"),
         fun _ _ _ => .ok (txt "NET"), fun _ _ _ => .ok (txt "NET")⟩
        (txt "other/repo") (txt "other") (txt "f") (some (txt "/r"))) ∧
    (load_canonical_text
        ⟨fun p => p == txt "/r" || p == txt "/r/f", fun p => p == txt "/r",
         fun p => if p == txt "/r/f" then .ok (txt "C") else .error (txt "io"),
         fun _ _ _ => .error (txt "net"), fun _ _ _ => .error (txt "net")⟩
        (txt "o/r") (txt "s") (txt "f") (some (txt "/r")) = .ok (txt "C")) ∧
    (load_canonical_text
        ⟨fun p => p == txt "/r" || p == txt "/r/f", fun p => p == txt "/r",
         fun p => if p == txt "/r/f" then .ok (txt "C") else .error (txt "io"),
         fun _ _ _ => .error (txt "net"), fun _ _ _ => .error (txt "net")⟩
        (txt "o/r") (txt "s") (txt "g") (some (txt "/r"))
      = .error (txt "Canonical file not found at " ++ pathJoin (txt "/r") (txt "g"))) :=
  ⟨(c7_local_override _ _ (txt "o/r") (txt "s") (txt "other/repo") (txt "other") (txt "f")
      (some (txt "/r")) rfl rfl rfl rfl).1,
   (((c7_local_override _ _ (txt "o/r") (txt "s") (txt "o/r") (txt "s") (txt "f")
      (some (txt "/r")) rfl rfl rfl rfl).2 (txt "/r") rfl (by decide)).2 (txt "C")
      (by decide) (by decide)),
   (((c7_local_override _ _ (txt "o/r") (txt "s") (txt "o/r") (txt "s") (txt "g")
      (some (txt "/r")) rfl rfl rfl rfl).2 (txt "/r") rfl (by decide)).1 (by decide))⟩

/-! ### C9: upsert on an empty or whitespace-only document

The code returns `rendered_block + "\n"`, not `rendered_block` alone, so the
claim as stated is refuted and the amended claim appends the newline. -/

/-- Counterexample to C9 as stated: on the empty document the result is the
block followed by a newline, not the block alone. -/
theorem c9_counterexample :
    upsert_generated_block (txt "") (txt "t") (txt "x") = .ok (txt "x\n") ∧
    upsert_generated_block (txt "") (txt "t") (txt "x") ≠ .ok (txt "x") := by
  constructor
  · rfl
  · decide

theorem all_space_of_pyStrip_nil (doc : Text) (h : pyStrip doc = []) :
    ∀ c ∈ doc, isPySpace c = true := by
  unfold pyStrip pyRstrip at h
  have h2 : (doc.dropWhile isPySpace).reverse.dropWhile isPySpace = [] := by
    have := congrArg List.reverse h
    simpa using this
  rw [List.dropWhile_eq_nil_iff] at h2
  intro c hc
  rcases (List.takeWhile_append_dropWhile (p := isPySpace) (l := doc)) ▸ hc with hmem
  rw [List.mem_append] at hmem
  rcases hmem with hmem | hmem
  · exact List.mem_takeWhile_imp hmem
  · exact h2 c (List.mem_reverse.mpr hmem)

theorem findSub_none_of_all_space (needle doc : Text) (hn : needle.head? = some '<')
    (h : ∀ c ∈ doc, isPySpace c = true) : findSub needle doc = none := by
  induction doc with
  | nil =>
    rcases needle with _ | ⟨n, ns⟩
    · cases hn
    · simp [findSub]
  | cons c rest ih =>
    rcases needle with _ | ⟨n, ns⟩
    · cases hn
    · have hn' : n = '<' := by simpa using hn
      subst hn'
      have hc : isPySpace c = true := h c (List.mem_cons_self c rest)
      have hne : ¬ List.isPrefixOf ('<' :: ns) (c :: rest) = true := by
        simp only [List.isPrefixOf, Bool.and_eq_true, beq_iff_eq]
        rintro ⟨h1, -⟩
        rw [← h1] at hc
        cases hc
      rw [findSub, if_neg hne, ih (fun x hx => h x (List.mem_cons_of_mem c hx))]
      rfl

theorem beginSentinel_head (tag : Text) : (beginSentinel tag).head? = some '<' := rfl

/-- C9 amended: on an empty or whitespace-only document, `upsert` yields the
rendered block followed by a single newline. -/
theorem c9_amended_upsert_empty_doc (document_text tag rendered_block : Text)
    (h : pyStrip document_text = []) :
    upsert_generated_block document_text tag rendered_block
      = .ok (rendered_block ++ txt "\n") := by
  have hfs : findSub (beginSentinel tag) document_text = none :=
    findSub_none_of_all_space _ _ (beginSentinel_head tag)
      (all_space_of_pyStrip_nil _ h)
  unfold upsert_generated_block findRegion
  simp only [hfs]
  simp [h]

/-- Witness for the amended C9 at a whitespace-only document. -/
theorem c9_amended_upsert_empty_doc_witness :
    upsert_generated_block (txt " \n\t") (txt "t") (txt "x") = .ok (txt "x" ++ txt "\n") :=
  c9_amended_upsert_empty_doc (txt " \n\t") (txt "t") (txt "x") (by decide)

/-! ### C6: manifest validation -/

theorem isInfix_append_left_of_isInfix (s l t : Text) (h : l <:+: t) : l <:+: s ++ t := by
  obtain ⟨u, v, rfl⟩ := h
  exact ⟨s ++ u, v, by simp⟩

theorem pyJoin_cons2 (sep x y : Text) (rest : List Text) :
    pyJoin sep (x :: y :: rest) = x ++ sep ++ pyJoin sep (y :: rest) := rfl

theorem infix_pyJoin_of_mem (sep k : Text) (l : List Text) (h : k ∈ l) :
    k <:+: pyJoin sep l := by
  induction l with
  | nil => cases h
  | cons x rest ih =>
    rcases rest with _ | ⟨y, rest2⟩
    · have hk : k = x := by simpa using h
      subst hk
      exact List.infix_refl k
    · rcases List.mem_cons.mp h with rfl | hmem
      · rw [pyJoin_cons2]
        exact ⟨[], sep ++ pyJoin sep (y :: rest2), by simp⟩
      · rw [pyJoin_cons2]
        rw [List.append_assoc]
        exact isInfix_append_left_of_isInfix _ _ _ (isInfix_append_left_of_isInfix _ _ _ (ih hmem))

/-- C6: a manifest missing required keys fails validation with an error
naming every missing key; a present but malformed `canonical_files` fails
validation; a present non-mapping `pr_map` fails validation. -/
theorem c6_load_manifest_validation :
    (∀ data : JObj, requiredManifestKeys.filter (fun k => (jlookup data k).isNone) ≠ [] →
      load_manifest data = .error (txt "Manifest missing required keys: "
        ++ pyJoin (txt ", ") (requiredManifestKeys.filter (fun k => (jlookup data k).isNone))) ∧
      (∀ k ∈ requiredManifestKeys, jlookup data k = none →
        k <:+: txt "Manifest missing required keys: "
          ++ pyJoin (txt ", ") (requiredManifestKeys.filter (fun k => (jlookup data k).isNone)))) ∧
    (∀ data : JObj, ∀ v, jlookup data (txt "canonical_files") = some v →
      (∀ files, v = JValue.arr files → files ≠ [] → files.all isNonemptyStr = true → False) →
      (load_manifest data).isOk = false) ∧
    (∀ data : JObj, ∀ v, jlookup data (txt "pr_map") = some v →
      (∀ fields, v ≠ JValue.obj fields) →
      (load_manifest data).isOk = false) := by
  refine ⟨fun data hne => ⟨?_, ?_⟩, fun data v hcf hbad => ?_, fun data v hpr hbad => ?_⟩
  · unfold load_manifest
    rw [if_neg (fun hI => hne (List.isEmpty_iff.mp hI))]
  · intro k hk hnone
    apply isInfix_append_left_of_isInfix
    apply infix_pyJoin_of_mem
    rw [List.mem_filter]
    exact ⟨hk, by rw [hnone]; rfl⟩
  · unfold load_manifest
    by_cases hm : (requiredManifestKeys.filter (fun k => (jlookup data k).isNone)).isEmpty = true
    · rw [if_pos hm, hcf]
      cases v with
      | arr files =>
        by_cases hemp : files.isEmpty = true
        · simp [hemp, Except.isOk, Except.toBool]
        · have hne : files ≠ [] := fun hh => hemp (by rw [hh]; rfl)
          have hall : ¬ files.all isNonemptyStr = true :=
            fun hh => hbad files rfl hne hh
          simp [hemp, hall, Except.isOk, Except.toBool]
      | str s => rfl
      | num n => rfl
      | bool b => rfl
      | null => rfl
      | obj fields => rfl
    · rw [if_neg hm]
      rfl
  · unfold load_manifest
    by_cases hm : (requiredManifestKeys.filter (fun k => (jlookup data k).isNone)).isEmpty = true
    · rw [if_pos hm]
      rcases hcf : jlookup data (txt "canonical_files") with _ | v2
      · rfl
      · cases v2 with
        | arr files =>
          by_cases hemp : files.isEmpty = true
          · simp [hemp, Except.isOk, Except.toBool]
          · by_cases hall : files.all isNonemptyStr = true
            · simp only [hemp, hall, if_false, if_true, Bool.false_eq_true]
              rw [hpr]
              cases v with
              | obj fields => exact absurd rfl (hbad fields)
              | str s => rfl
              | num n => rfl
              | bool b => rfl
              | null => rfl
              | arr l => rfl
            · simp [hemp, hall, Except.isOk, Except.toBool]
        | str s => rfl
        | num n => rfl
        | bool b => rfl
        | null => rfl
        | obj fields => rfl
    · rw [if_neg hm]
      rfl

/-- Witness for C6: a manifest with only `epic` (part one, with `pr_map` among
the named missing keys), a manifest whose `canonical_files` is a string, and a
manifest whose `pr_map` is a string. -/
theorem c6_load_manifest_validation_witness :
    (load_manifest [(txt "epic", JValue.str (txt "E"))]
      = .error (txt "Manifest missing required keys: " ++ pyJoin (txt ", ")
          (requiredManifestKeys.filter
            (fun k => (jlookup [(txt "epic", JValue.str (txt "E"))] k).isNone)))) ∧
    (txt "pr_map" <:+: txt "Manifest missing required keys: " ++ pyJoin (txt ", ")
        (requiredManifestKeys.filter
          (fun k => (jlookup [(txt "epic", JValue.str (txt "E"))] k).isNone))) ∧
    ((load_manifest [(txt "epic", JValue.str (txt "E")),
        (txt "infra_repo", JValue.str (txt "o")), (txt "infra_sha", JValue.str (txt "s")),
        (txt "pr_map", JValue.obj []),
        (txt "canonical_files", JValue.str (txt "x"))]).isOk = false) ∧
    ((load_manifest [(txt "epic", JValue.str (txt "E")),
        (txt "infra_repo", JValue.str (txt "o")), (txt "infra_sha", JValue.str (txt "s")),
        (txt "pr_map", JValue.str (txt "no")),
        (txt "canonical_files", JValue.arr [JValue.str (txt "a")])]).isOk = false) :=
  ⟨(c6_load_manifest_validation.1 [(txt "epic", JValue.str (txt "E"))] (by decide)).1,
   (c6_load_manifest_validation.1 [(txt "epic", JValue.str (txt "E"))] (by decide)).2
     (txt "pr_map") (by decide) rfl,
   c6_load_manifest_validation.2.1 _ (JValue.str (txt "x")) rfl
     (fun _ hf _ _ => JValue.noConfusion hf),
   c6_load_manifest_validation.2.2 _ (JValue.str (txt "no")) rfl
     (fun _ hf => JValue.noConfusion hf)⟩

/-! ### C1: generate followed by verify -/

/-- Entries produced by `generateEntries` verify cleanly against the same
loader: the recomputed digest of each path equals the recorded one. -/
theorem verifyEntries_generateEntries (content_loader : Text → Except Text Text)
    (files entries : List JValue)
    (h : generateEntries content_loader files = .ok entries) :
    verifyEntries content_loader entries = .ok [] := by
  induction files generalizing entries with
  | nil =>
    rw [generateEntries] at h
    cases h
    rfl
  | cons f rest ih =>
    rw [generateEntries] at h
    cases hl : content_loader (pyStr f) with
    | error e =>
      rw [hl] at h
      cases h
    | ok text =>
      rw [hl] at h
      cases hg : generateEntries content_loader rest with
      | error e =>
        rw [hg] at h
        cases h
      | ok es =>
        rw [hg] at h
        cases h
        have hne2 : ¬ (txt "path" = txt "sha256") := by decide
        have hb : pyStr (JValue.str (pyStr f)) = pyStr f := rfl
        have hb2 : pyStr (JValue.str (sha256_normalized_text text))
            = sha256_normalized_text text := rfl
        simp only [verifyEntries, jlookup, hne2, eq_self_iff_true, if_true, if_false,
          Option.getD_some, hb, hb2, hl]
        exact ih es hg

/-- C1: for a valid manifest and a (pure, hence fixed-content) loader, a
successful `generate_spec_lock` followed by `verify_spec_lock` on the
resulting lock record with the same loader yields `ok = true` and no
mismatches. -/
theorem c1_generate_verify_roundtrip (manifest : JObj)
    (content_loader : Text → Except Text Text)
    (generated_at generator_name generator_version : Text) (lock_data : JObj)
    (hvalid : load_manifest manifest = .ok manifest)
    (hgen : generate_spec_lock manifest content_loader generated_at
        generator_name generator_version = .ok lock_data) :
    verify_spec_lock lock_data content_loader = .ok ⟨true, []⟩ := by
  unfold generate_spec_lock at hgen
  cases hcf : jlookup manifest (txt "canonical_files") with
  | none =>
    rw [hcf] at hgen
    cases hgen
  | some v =>
    rw [hcf] at hgen
    cases v with
    | arr files =>
      dsimp only at hgen
      cases hge : generateEntries content_loader files with
      | error e =>
        rw [hge] at hgen
        cases hgen
      | ok entries =>
        rw [hge] at hgen
        dsimp only at hgen
        cases hepic : jlookup manifest (txt "epic") with
        | none => rw [hepic] at hgen; cases hgen
        | some vEpic =>
          rw [hepic] at hgen
          dsimp only at hgen
          cases hrepo : jlookup manifest (txt "infra_repo") with
          | none => rw [hrepo] at hgen; cases hgen
          | some vRepo =>
            rw [hrepo] at hgen
            dsimp only at hgen
            cases hsha : jlookup manifest (txt "infra_sha") with
            | none => rw [hsha] at hgen; cases hgen
            | some vSha =>
              rw [hsha] at hgen
              dsimp only at hgen
              cases hgen
              unfold verify_spec_lock
              have hl : jlookup
                  [(txt "schema_version", JValue.num 1),
                   (txt "epic", JValue.str (pyStr vEpic)),
                   (txt "generated_at", JValue.str generated_at),
                   (txt "infra_repo", JValue.str (pyStr vRepo)),
                   (txt "infra_sha", JValue.str (pyStr vSha)),
                   (txt "canonical_files", JValue.arr entries),
                   (txt "generator",
                     JValue.obj [(txt "name", JValue.str generator_name),
                                 (txt "version", JValue.str generator_version)])]
                  (txt "canonical_files") = some (JValue.arr entries) := rfl
              rw [hl]
              simp only [Option.getD_some]
              rw [verifyEntries_generateEntries content_loader files entries hge]
              rfl
    | str s => cases hgen
    | num n => cases hgen
    | bool b => cases hgen
    | null => cases hgen
    | obj fields => cases hgen

/-- Witness for C1 at a one-file manifest and the constant loader
returning `"X\n"`. -/
theorem c1_generate_verify_roundtrip_witness :
    verify_spec_lock
      ((generate_spec_lock
          [(txt "epic", JValue.str (txt "E")),
           (txt "infra_repo", JValue.str (txt "o/r")),
           (txt "infra_sha", JValue.str (txt "abc")),
           (txt "pr_map", JValue.obj []),
           (txt "canonical_files", JValue.arr [JValue.str (txt "a.md")])]
          (fun _ => .ok (txt "X\n")) (txt "2024-01-01T00:00:00Z")
          (txt "g") (txt "v")).toOption.getD [])
      (fun _ => .ok (txt "X\n")) = .ok ⟨true, []⟩ :=
  c1_generate_verify_roundtrip
    [(txt "epic", JValue.str (txt "E")),
     (txt "infra_repo", JValue.str (txt "o/r")),
     (txt "infra_sha", JValue.str (txt "abc")),
     (txt "pr_map", JValue.obj []),
     (txt "canonical_files", JValue.arr [JValue.str (txt "a.md")])]
    (fun _ => .ok (txt "X\n")) (txt "2024-01-01T00:00:00Z") (txt "g") (txt "v")
    _ rfl rfl

/-! ### C3: per-entry error capture in verification -/

/-- Lemma: `verifyEntries` on well-formed (dict) entries never aborts: it returns
exactly the mismatches collected entry by entry over the whole list. -/
theorem verifyEntries_eq_filterMap (content_loader : Text → Except Text Text)
    (entries : List JValue)
    (hobj : ∀ e ∈ entries, ∃ fields, e = JValue.obj fields) :
    verifyEntries content_loader entries
      = .ok (entries.filterMap (entryMismatch content_loader)) := by
  induction entries with
  | nil => rfl
  | cons e rest ih =>
    obtain ⟨fields, rfl⟩ := hobj e (List.mem_cons_self e rest)
    have ihr := ih (fun x hx => hobj x (List.mem_cons_of_mem _ hx))
    cases hl : content_loader (pyStr ((jlookup fields (txt "path")).getD (JValue.str []))) with
    | error exc =>
      have hm : entryMismatch content_loader (JValue.obj fields)
          = some ⟨pyStr ((jlookup fields (txt "path")).getD (JValue.str [])),
                  pyStr ((jlookup fields (txt "sha256")).getD (JValue.str [])),
                  errPlaceholder exc⟩ := by
        unfold entryMismatch
        dsimp only
        rw [hl]
      simp only [verifyEntries, hl, ihr, List.filterMap_cons, hm]
    | ok text =>
      by_cases heq : sha256_normalized_text text
          = pyStr ((jlookup fields (txt "sha256")).getD (JValue.str []))
      · have hm : entryMismatch content_loader (JValue.obj fields) = none := by
          unfold entryMismatch
          dsimp only
          rw [hl]
          dsimp only
          rw [if_pos heq]
        simp only [verifyEntries, hl, if_pos heq, List.filterMap_cons, hm]
        exact ihr
      · have hm : entryMismatch content_loader (JValue.obj fields)
            = some ⟨pyStr ((jlookup fields (txt "path")).getD (JValue.str [])),
                    pyStr ((jlookup fields (txt "sha256")).getD (JValue.str [])),
                    sha256_normalized_text text⟩ := by
          unfold entryMismatch
          dsimp only
          rw [hl]
          dsimp only
          rw [if_neg heq]
        simp only [verifyEntries, hl, if_neg heq, List.filterMap_cons, hm, ihr]

/-- C3: verification of a lock record with well-formed entries processes
every entry: a loader failure for one path becomes a mismatch carrying the
error placeholder, later entries are still checked (the mismatch list is the
entry-by-entry collection over the whole list), and `ok` is true exactly when
that list is empty. -/
theorem c3_verify_error_capture (lock_data : JObj) (content_loader : Text → Except Text Text)
    (entries : List JValue)
    (hcf : jlookup lock_data (txt "canonical_files") = some (JValue.arr entries))
    (hobj : ∀ e ∈ entries, ∃ fields, e = JValue.obj fields) :
    verify_spec_lock lock_data content_loader
      = .ok ⟨(entries.filterMap (entryMismatch content_loader)).isEmpty,
             entries.filterMap (entryMismatch content_loader)⟩ ∧
    ((entries.filterMap (entryMismatch content_loader)).isEmpty = true
      ↔ entries.filterMap (entryMismatch content_loader) = []) ∧
    (∀ e ∈ entries, ∀ exc, content_loader (entryPath e) = .error exc →
      (⟨entryPath e, entryExpected e, errPlaceholder exc⟩ : Mismatch)
        ∈ entries.filterMap (entryMismatch content_loader)) := by
  refine ⟨?_, List.isEmpty_iff, ?_⟩
  · unfold verify_spec_lock
    rw [hcf]
    simp only [Option.getD_some]
    rw [verifyEntries_eq_filterMap content_loader entries hobj]
    rfl
  · intro e he exc hl
    obtain ⟨fields, rfl⟩ := hobj e he
    refine List.mem_filterMap.mpr ⟨JValue.obj fields, he, ?_⟩
    unfold entryMismatch
    dsimp only
    rw [show pyStr ((jlookup fields (txt "path")).getD (JValue.str []))
        = entryPath (JValue.obj fields) from rfl, hl]
    exact rfl

/-- Witness for C3: two entries, the first failing retrieval, the second
mismatching; both are reported and `ok` is false. -/
theorem c3_verify_error_capture_witness :
    verify_spec_lock
      [(txt "canonical_files", JValue.arr
        [JValue.obj [(txt "path", JValue.str (txt "a")), (txt "sha256", JValue.str (txt "h1"))],
         JValue.obj [(txt "path", JValue.str (txt "b")), (txt "sha256", JValue.str (txt "h2"))]])]
      (fun p => if p == txt "a" then .error (txt "boom") else .ok (txt "X"))
      = .ok ⟨(([JValue.obj [(txt "path", JValue.str (txt "a")),
                            (txt "sha256", JValue.str (txt "h1"))],
                JValue.obj [(txt "path", JValue.str (txt "b")),
                            (txt "sha256", JValue.str (txt "h2"))]] :
          List JValue).filterMap
            (entryMismatch (fun p => if p == txt "a" then .error (txt "boom")
              else .ok (txt "X")))).isEmpty,
          ([JValue.obj [(txt "path", JValue.str (txt "a")),
                        (txt "sha256", JValue.str (txt "h1"))],
            JValue.obj [(txt "path", JValue.str (txt "b")),
                        (txt "sha256", JValue.str (txt "h2"))]] :
          List JValue).filterMap
            (entryMismatch (fun p => if p == txt "a" then .error (txt "boom")
              else .ok (txt "X")))⟩ :=
  (c3_verify_error_capture
    [(txt "canonical_files", JValue.arr
      [JValue.obj [(txt "path", JValue.str (txt "a")), (txt "sha256", JValue.str (txt "h1"))],
       JValue.obj [(txt "path", JValue.str (txt "b")), (txt "sha256", JValue.str (txt "h2"))]])]
    (fun p => if p == txt "a" then .error (txt "boom") else .ok (txt "X"))
    [JValue.obj [(txt "path", JValue.str (txt "a")), (txt "sha256", JValue.str (txt "h1"))],
     JValue.obj [(txt "path", JValue.str (txt "b")), (txt "sha256", JValue.str (txt "h2"))]]
    rfl
    (fun e he => by
      rcases List.mem_cons.mp he with rfl | he2
      · exact ⟨_, rfl⟩
      · rcases List.mem_cons.mp he2 with rfl | he3
        · exact ⟨_, rfl⟩
        · cases he3)).1

/-! ### Machinery for the generated-block upserter (C4, C5) -/

theorem findSub_of_prefix_min (needle : Text) (hne : needle ≠ []) (hay : Text) (i : Nat)
    (hpre : needle <+: hay.drop i) (hmin : ∀ k < i, ¬ needle <+: hay.drop k) :
    findSub needle hay = some i := by
  induction hay generalizing i with
  | nil =>
    exfalso
    rw [List.drop_nil] at hpre
    exact hne (List.prefix_nil.mp hpre)
  | cons c rest ih =>
    cases i with
    | zero =>
      rw [findSub, if_pos (List.isPrefixOf_iff_prefix.mpr (by simpa using hpre))]
    | succ j =>
      have h0 : ¬ needle.isPrefixOf (c :: rest) = true := by
        intro hh
        exact hmin 0 (Nat.succ_pos j) (by simpa using List.isPrefixOf_iff_prefix.mp hh)
      rw [findSub, if_neg h0, ih j (by simpa using hpre) (fun k hk => by
        have := hmin (k + 1) (by omega)
        simpa using this)]
      rfl

theorem findSub_some_prefix (needle hay : Text) (i : Nat) (h : findSub needle hay = some i) :
    needle <+: hay.drop i := by
  induction hay generalizing i with
  | nil =>
    rw [findSub] at h
    by_cases hne : needle.isEmpty = true
    · rw [if_pos hne] at h
      cases h
      simp [List.isEmpty_iff.mp hne]
    · rw [if_neg hne] at h
      cases h
  | cons c rest ih =>
    rw [findSub] at h
    by_cases hp : needle.isPrefixOf (c :: rest) = true
    · rw [if_pos hp] at h
      cases h
      simpa using List.isPrefixOf_iff_prefix.mp hp
    · rw [if_neg hp] at h
      cases hf : findSub needle rest with
      | none => rw [hf] at h; cases h
      | some j =>
        rw [hf, Option.map_some'] at h
        cases h
        simpa using ih j hf

theorem findSub_some_min (needle hay : Text) (i : Nat) (h : findSub needle hay = some i) :
    ∀ k < i, ¬ needle <+: hay.drop k := by
  induction hay generalizing i with
  | nil =>
    rw [findSub] at h
    by_cases hne : needle.isEmpty = true
    · rw [if_pos hne] at h
      cases h
      omega
    · rw [if_neg hne] at h
      cases h
  | cons c rest ih =>
    rw [findSub] at h
    by_cases hp : needle.isPrefixOf (c :: rest) = true
    · rw [if_pos hp] at h
      cases h
      omega
    · rw [if_neg hp] at h
      cases hf : findSub needle rest with
      | none => rw [hf] at h; cases h
      | some j =>
        rw [hf, Option.map_some'] at h
        cases h
        intro k hk
        cases k with
        | zero =>
          intro hpre
          exact hp (List.isPrefixOf_iff_prefix.mpr (by simpa using hpre))
        | succ k2 =>
          intro hpre
          exact ih j hf k2 (by omega) (by simpa using hpre)

theorem findSub_none_not_prefix (needle hay : Text) (h : findSub needle hay = none) :
    ∀ k, ¬ needle <+: hay.drop k := by
  induction hay with
  | nil =>
    rw [findSub] at h
    by_cases hne : needle.isEmpty = true
    · rw [if_pos hne] at h; cases h
    · rw [if_neg hne] at h
      intro k hpre
      rw [List.drop_nil] at hpre
      rw [List.prefix_nil.mp hpre] at hne
      exact hne rfl
  | cons c rest ih =>
    rw [findSub] at h
    by_cases hp : needle.isPrefixOf (c :: rest) = true
    · rw [if_pos hp] at h; cases h
    · rw [if_neg hp] at h
      cases hf : findSub needle rest with
      | some j => rw [hf] at h; cases h
      | none =>
        intro k
        cases k with
        | zero =>
          intro hpre
          exact hp (List.isPrefixOf_iff_prefix.mpr (by simpa using hpre))
        | succ k2 =>
          intro hpre
          exact ih hf k2 (by simpa using hpre)

theorem findRegion_some_elim (b e doc : Text) (i j : Nat)
    (h : findRegion b e doc = some (i, j)) :
    findSub b doc = some i ∧
    ∃ k, findSub e (doc.drop (i + b.length)) = some k ∧ j = i + b.length + k + e.length := by
  unfold findRegion at h
  cases hb : findSub b doc with
  | none => rw [hb] at h; cases h
  | some i2 =>
    rw [hb] at h
    dsimp only at h
    cases he : findSub e (doc.drop (i2 + b.length)) with
    | none => rw [he] at h; cases h
    | some k =>
      rw [he] at h
      cases h
      exact ⟨rfl, k, he, rfl⟩

theorem findRegion_none_elim (b e doc : Text)
    (h : findRegion b e doc = none) (hfb : (findSub b doc).isSome) :
    ∃ i, findSub b doc = some i ∧ findSub e (doc.drop (i + b.length)) = none := by
  unfold findRegion at h
  cases hb : findSub b doc with
  | none => rw [hb] at hfb; cases hfb
  | some i =>
    rw [hb] at h
    dsimp only at h
    cases he : findSub e (doc.drop (i + b.length)) with
    | none => exact ⟨i, rfl, he⟩
    | some k => rw [he] at h; cases h

/-- A character inside an occurrence of `needle` equals the corresponding
character of `needle`. -/
theorem prefix_drop_char (needle l : Text) (k idx : Nat) (hpre : needle <+: l.drop k)
    (hidx : idx < needle.length) : l[k + idx]? = needle[idx]? := by
  obtain ⟨t, ht⟩ := hpre
  rw [← List.getElem?_drop, ← ht, List.getElem?_append_left hidx]

/-- Any character strictly inside the span of an occurrence of `needle`
belongs to `needle`. -/
theorem char_of_occurrence (needle l : Text) (k p : Nat) (hpre : needle <+: l.drop k)
    (hk : k ≤ p) (hp : p < k + needle.length) (c : Char) (hchar : l[p]? = some c) :
    c ∈ needle := by
  have hidx : p - k < needle.length := by omega
  have hc := prefix_drop_char needle l k (p - k) hpre hidx
  rw [show k + (p - k) = p from by omega, hchar] at hc
  exact List.getElem?_mem hc.symm

/-- If a needle starting with `hd` occurs at `k` and `hd` does not occur in
its tail, then no position strictly after `k` within the occurrence holds
`hd`. -/
theorem no_inner_char (hd : Char) (bs : Text) (hno : hd ∉ bs)
    (l : Text) (k p : Nat) (hpre : (hd :: bs) <+: l.drop k)
    (hlt : k < p) (hp : p < k + bs.length + 1) (hchar : l[p]? = some hd) : False := by
  have hidx : p - k < (hd :: bs).length := by simp only [List.length_cons]; omega
  have hc := prefix_drop_char (hd :: bs) l k (p - k) hpre hidx
  rw [show k + (p - k) = p from by omega, hchar] at hc
  obtain ⟨d, hd2⟩ : ∃ d, p - k = d + 1 := ⟨p - k - 1, by omega⟩
  rw [hd2, List.getElem?_cons_succ] at hc
  exact hno (List.getElem?_mem hc.symm)

/-- A prefix of `X ++ Z` short enough to fit inside `X` is a prefix of `X`. -/
theorem prefix_of_append_of_le (b X Z : Text) (h : b <+: X ++ Z) (hle : b.length ≤ X.length) :
    b <+: X := by
  have hb := List.prefix_iff_eq_take.mp h
  rw [List.take_append_of_le_length hle] at hb
  rw [hb]
  exact List.take_prefix _ _

theorem pyRstrip_prefix (t : Text) : pyRstrip t <+: t := by
  have h1 : t.reverse.dropWhile isPySpace <:+ t.reverse := List.dropWhile_suffix _
  have h2 := List.reverse_prefix.mpr h1
  rw [List.reverse_reverse] at h2
  exact h2

theorem not_mem_append3 (c : Char) (x y z : Text) (hx : c ∉ x) (hy : c ∉ y) (hz : c ∉ z) :
    c ∉ x ++ (y ++ z) := by
  intro hmem
  rcases List.mem_append.mp hmem with h1 | h1
  · exact hx h1
  · rcases List.mem_append.mp h1 with h2 | h2
    · exact hy h2
    · exact hz h2

theorem beginSentinel_cons (tag : Text) :
    beginSentinel tag = '<' :: (txt "!-- BEGIN GENERATED: " ++ (tag ++ txt " -->")) := rfl

theorem endSentinel_cons (tag : Text) :
    endSentinel tag = '<' :: (txt "!-- END GENERATED: " ++ (tag ++ txt " -->")) := rfl

theorem lt_not_mem_beginTail (tag : Text) (h : '<' ∉ tag) :
    '<' ∉ txt "!-- BEGIN GENERATED: " ++ (tag ++ txt " -->") :=
  not_mem_append3 _ _ _ _ (by decide) h (by decide)

theorem lt_not_mem_endTail (tag : Text) (h : '<' ∉ tag) :
    '<' ∉ txt "!-- END GENERATED: " ++ (tag ++ txt " -->") :=
  not_mem_append3 _ _ _ _ (by decide) h (by decide)

theorem nl_not_mem_beginSentinel (tag : Text) (h : '\n' ∉ tag) : '\n' ∉ beginSentinel tag := by
  rw [beginSentinel_cons]
  intro hmem
  rcases List.mem_cons.mp hmem with h1 | h1
  · cases h1
  · exact not_mem_append3 _ _ _ _ (by decide) h (by decide) h1

theorem bs_not_mem_beginSentinel (tag : Text) (h : '\\' ∉ tag) : '\\' ∉ beginSentinel tag := by
  rw [beginSentinel_cons]
  intro hmem
  rcases List.mem_cons.mp hmem with h1 | h1
  · cases h1
  · exact not_mem_append3 _ _ _ _ (by decide) h (by decide) h1

theorem bs_not_mem_endSentinel (tag : Text) (h : '\\' ∉ tag) : '\\' ∉ endSentinel tag := by
  rw [endSentinel_cons]
  intro hmem
  rcases List.mem_cons.mp hmem with h1 | h1
  · cases h1
  · exact not_mem_append3 _ _ _ _ (by decide) h (by decide) h1

theorem bs_not_mem_block (tag m : Text) (h1 : '\\' ∉ tag) (h2 : '\\' ∉ m) :
    '\\' ∉ beginSentinel tag ++ m ++ endSentinel tag := by
  intro hmem
  rcases List.mem_append.mp hmem with h3 | h3
  · rcases List.mem_append.mp h3 with h4 | h4
    · exact bs_not_mem_beginSentinel tag h1 h4
    · exact h2 h4
  · exact bs_not_mem_endSentinel tag h1 h3

/-- A backslash-free replacement string parses as pure literal text and
expands to itself whatever the match was. -/
theorem parse_template_no_backslash (s : Text) (h : '\\' ∉ s) :
    ∃ items, parse_template s = .ok items ∧ ∀ matched, expandTemplate items matched = s := by
  induction s with
  | nil => exact ⟨[], parse_template.eq_1, fun _ => rfl⟩
  | cons c rest ih =>
    have hc : ¬ c = '\\' := fun hh => h (by rw [hh]; exact List.mem_cons_self _ _)
    obtain ⟨items, hp, he⟩ := ih (fun hm => h (List.mem_cons_of_mem _ hm))
    refine ⟨TItem.lit [c] :: items, ?_, fun matched => ?_⟩
    · rw [parse_template.eq_3 c rest (fun hh => hc hh), hp]
      rfl
    · show [c] ++ expandTemplate items matched = c :: rest
      rw [he matched]
      rfl

/-- The replacement template `\g<0>` parses as a single whole-match group
reference. -/
theorem parse_template_g0 : parse_template (txt "\\g<0>") = .ok [TItem.group0] := by
  rw [show txt "\\g<0>" = '\\' :: txt "g<0>" from rfl, parse_template.eq_2,
    show parseEscapeStep (txt "g<0>") = .ok (TItem.group0, 4) from rfl]
  dsimp only
  rw [show (txt "g<0>").drop 4 = [] from rfl, parse_template.eq_1]
  rfl

/-- Expansion of `\g<0>` is the matched text. -/
theorem expand_g0 (matched : Text) : expandTemplate [TItem.group0] matched = matched := by
  show matched ++ [] = matched
  simp

/-- The region-replacement branch of `upsert_generated_block`. -/
theorem upsert_region_found (doc tag block : Text) (i j : Nat)
    (hr : findRegion (beginSentinel tag) (endSentinel tag) doc = some (i, j)) :
    upsert_generated_block doc tag block
      = (parse_template block).map
          (fun items => doc.take i ++ expandTemplate items (extractSlice doc i j) ++ doc.drop j) := by
  unfold upsert_generated_block
  simp only [hr]

/-- Region replacement with a backslash-free block: the match span is
replaced by the block itself. -/
theorem upsert_region_literal (doc tag block : Text) (i j : Nat)
    (hr : findRegion (beginSentinel tag) (endSentinel tag) doc = some (i, j))
    (hbs : '\\' ∉ block) :
    upsert_generated_block doc tag block = .ok (doc.take i ++ block ++ doc.drop j) := by
  obtain ⟨items, hp, he⟩ := parse_template_no_backslash block hbs
  rw [upsert_region_found doc tag block i j hr, hp]
  show Except.ok (doc.take i ++ expandTemplate items (extractSlice doc i j) ++ doc.drop j)
      = Except.ok (doc.take i ++ block ++ doc.drop j)
  rw [he (extractSlice doc i j)]

/-- The no-region, whitespace-only-document branch of
`upsert_generated_block`. -/
theorem upsert_strip_empty (doc tag block : Text) (h : pyStrip doc = []) :
    upsert_generated_block doc tag block = .ok (block ++ txt "\n") := by
  have hfs : findSub (beginSentinel tag) doc = none :=
    findSub_none_of_all_space _ _ (beginSentinel_head tag) (all_space_of_pyStrip_nil _ h)
  unfold upsert_generated_block findRegion
  simp only [hfs]
  simp [h]

/-- The no-region, non-whitespace-document branch of
`upsert_generated_block`. -/
theorem upsert_append_branch (doc tag block : Text)
    (hr : findRegion (beginSentinel tag) (endSentinel tag) doc = none)
    (h : pyStrip doc ≠ []) :
    upsert_generated_block doc tag block
      = .ok (pyRstrip doc ++ txt "\n\n" ++ block ++ txt "\n") := by
  unfold upsert_generated_block
  simp only [hr]
  simp [h]

/-- In `U ++ (b ++ m ++ e) ++ W` with no earlier occurrence of the begin
sentinel, the regex match is exactly the embedded block: the begin sentinel
is found at `U.length` and the lazy end-sentinel search stops at the block's
own end sentinel (the interior `m` is `'<'`-free, and a sentinel can only
start at a `'<'`). -/
theorem findRegion_at_block (tag m U W : Text) (hm : '<' ∉ m)
    (hU : ∀ k < U.length,
      ¬ beginSentinel tag <+: (U ++ (beginSentinel tag ++ m ++ endSentinel tag) ++ W).drop k) :
    findRegion (beginSentinel tag) (endSentinel tag)
        (U ++ (beginSentinel tag ++ m ++ endSentinel tag) ++ W)
      = some (U.length,
          U.length + (beginSentinel tag ++ m ++ endSentinel tag).length) := by
  have hdrop : (U ++ (beginSentinel tag ++ m ++ endSentinel tag) ++ W).drop U.length
      = (beginSentinel tag ++ m ++ endSentinel tag) ++ W := by
    rw [List.append_assoc U (beginSentinel tag ++ m ++ endSentinel tag) W]
    exact List.drop_left _ _
  have hb : findSub (beginSentinel tag)
      (U ++ (beginSentinel tag ++ m ++ endSentinel tag) ++ W) = some U.length := by
    apply findSub_of_prefix_min
    · rw [beginSentinel_cons]
      exact List.cons_ne_nil _ _
    · rw [hdrop, show (beginSentinel tag ++ m ++ endSentinel tag) ++ W
        = beginSentinel tag ++ (m ++ (endSentinel tag ++ W)) by simp [List.append_assoc]]
      exact List.prefix_append _ _
    · exact hU
  have hdoc2 : (U ++ (beginSentinel tag ++ m ++ endSentinel tag) ++ W).drop
      (U.length + (beginSentinel tag).length) = m ++ (endSentinel tag ++ W) := by
    rw [← List.drop_drop, hdrop, show (beginSentinel tag ++ m ++ endSentinel tag) ++ W
      = beginSentinel tag ++ (m ++ (endSentinel tag ++ W)) by simp [List.append_assoc]]
    exact List.drop_left _ _
  have he : findSub (endSentinel tag)
      ((U ++ (beginSentinel tag ++ m ++ endSentinel tag) ++ W).drop
        (U.length + (beginSentinel tag).length)) = some m.length := by
    rw [hdoc2]
    apply findSub_of_prefix_min
    · rw [endSentinel_cons]
      exact List.cons_ne_nil _ _
    · rw [List.drop_left]
      exact List.prefix_append _ _
    · intro k hk hpre
      have h0 := prefix_drop_char (endSentinel tag) _ k 0 hpre
        (by rw [endSentinel_cons]; simp)
      rw [Nat.add_zero] at h0
      have hchar : (m ++ (endSentinel tag ++ W))[k]? = some '<' := by
        rw [h0, endSentinel_cons]
        rfl
      rw [List.getElem?_append_left hk] at hchar
      exact hm (List.getElem?_mem hchar)
  unfold findRegion
  rw [hb]
  dsimp only
  rw [he]
  dsimp only
  have hlen : U.length + (beginSentinel tag).length + m.length + (endSentinel tag).length
      = U.length + (beginSentinel tag ++ m ++ endSentinel tag).length := by
    simp [List.length_append]
    omega
  rw [hlen]

/-- A document of the shape `U ++ block ++ W`, where `block` is a complete
generated block for the tag and `U` contains no earlier begin-sentinel
occurrence, is a fixed point of `upsert` with that block. -/
theorem upsert_block_fixed (tag m U W : Text) (hbs1 : '\\' ∉ tag) (hm : '<' ∉ m)
    (hbs2 : '\\' ∉ m)
    (hU : ∀ k < U.length,
      ¬ beginSentinel tag <+: (U ++ (beginSentinel tag ++ m ++ endSentinel tag) ++ W).drop k) :
    upsert_generated_block (U ++ (beginSentinel tag ++ m ++ endSentinel tag) ++ W) tag
        (beginSentinel tag ++ m ++ endSentinel tag)
      = .ok (U ++ (beginSentinel tag ++ m ++ endSentinel tag) ++ W) := by
  have hr := findRegion_at_block tag m U W hm hU
  rw [upsert_region_literal _ _ _ _ _ hr (bs_not_mem_block tag m hbs1 hbs2)]
  have ht : (U ++ (beginSentinel tag ++ m ++ endSentinel tag) ++ W).take U.length = U := by
    rw [List.append_assoc U (beginSentinel tag ++ m ++ endSentinel tag) W]
    exact List.take_left ..
  have hd : (U ++ (beginSentinel tag ++ m ++ endSentinel tag) ++ W).drop
      (U.length + (beginSentinel tag ++ m ++ endSentinel tag).length) = W := by
    rw [List.append_assoc U (beginSentinel tag ++ m ++ endSentinel tag) W,
      ← List.drop_drop, List.drop_left]
    exact List.drop_left _ _
  rw [ht, hd]

/-! ### C5: region replacement -/

/-- Counterexample to C5 as stated: `pattern.sub` treats the replacement as
a template, so a block containing `\g<0>` is not inserted literally — the
region is replaced by the expansion of the template (here, the match
itself), not by `rendered_block`. -/
theorem c5_counterexample :
    upsert_generated_block
        (beginSentinel (txt "t") ++ endSentinel (txt "t")) (txt "t") (txt "\\g<0>")
      = .ok (beginSentinel (txt "t") ++ endSentinel (txt "t")) ∧
    beginSentinel (txt "t") ++ endSentinel (txt "t") ≠ txt "\\g<0>" := by
  constructor
  · rw [upsert_region_found _ _ _ 0 52 (by decide), parse_template_g0]
    rfl
  · decide

/-- C5 amended: for a rendered block free of backslashes, `upsert` on a
document decomposed as `u ++ begin ++ v ++ end ++ w` — where `u` holds no
earlier begin-sentinel occurrence and `v` no earlier end-sentinel
occurrence, i.e. the decomposition marks the first region — replaces exactly
that region with the block and preserves everything outside byte-for-byte. -/
theorem c5_amended_upsert_replaces_first_region (tag rendered_block u v w : Text)
    (hbs : '\\' ∉ rendered_block)
    (hu : ∀ k < u.length,
      ¬ beginSentinel tag <+: (u ++ beginSentinel tag ++ v ++ endSentinel tag ++ w).drop k)
    (hv : ∀ k < v.length,
      ¬ endSentinel tag <+: (v ++ (endSentinel tag ++ w)).drop k) :
    upsert_generated_block (u ++ beginSentinel tag ++ v ++ endSentinel tag ++ w) tag
        rendered_block
      = .ok (u ++ rendered_block ++ w) := by
  have hassoc : u ++ beginSentinel tag ++ v ++ endSentinel tag ++ w
      = u ++ (beginSentinel tag ++ (v ++ (endSentinel tag ++ w))) := by
    simp [List.append_assoc]
  have hb : findSub (beginSentinel tag)
      (u ++ beginSentinel tag ++ v ++ endSentinel tag ++ w) = some u.length := by
    apply findSub_of_prefix_min
    · rw [beginSentinel_cons]
      exact List.cons_ne_nil _ _
    · rw [hassoc, List.drop_left]
      exact List.prefix_append _ _
    · exact hu
  have hd2 : (u ++ beginSentinel tag ++ v ++ endSentinel tag ++ w).drop
      (u.length + (beginSentinel tag).length) = v ++ (endSentinel tag ++ w) := by
    rw [hassoc, ← List.drop_drop, List.drop_left]
    exact List.drop_left _ _
  have he : findSub (endSentinel tag)
      ((u ++ beginSentinel tag ++ v ++ endSentinel tag ++ w).drop
        (u.length + (beginSentinel tag).length)) = some v.length := by
    rw [hd2]
    apply findSub_of_prefix_min
    · rw [endSentinel_cons]
      exact List.cons_ne_nil _ _
    · rw [List.drop_left]
      exact List.prefix_append _ _
    · exact hv
  have hr : findRegion (beginSentinel tag) (endSentinel tag)
      (u ++ beginSentinel tag ++ v ++ endSentinel tag ++ w)
      = some (u.length,
          u.length + (beginSentinel tag).length + v.length + (endSentinel tag).length) := by
    unfold findRegion
    rw [hb]
    dsimp only
    rw [he]
  rw [upsert_region_literal _ _ _ _ _ hr hbs]
  have htake : (u ++ beginSentinel tag ++ v ++ endSentinel tag ++ w).take u.length = u := by
    rw [hassoc]
    exact List.take_left ..
  have hdrop : (u ++ beginSentinel tag ++ v ++ endSentinel tag ++ w).drop
      (u.length + (beginSentinel tag).length + v.length + (endSentinel tag).length) = w := by
    rw [hassoc, ← List.drop_drop, ← List.drop_drop, ← List.drop_drop,
      List.drop_left, List.drop_left, List.drop_left]
    exact List.drop_left _ _
  rw [htake, hdrop]

/-- Witness for the amended C5: a document with text before and after its
region. -/
theorem c5_amended_upsert_replaces_first_region_witness :
    upsert_generated_block
        (txt "pre " ++ beginSentinel (txt "t") ++ txt "old" ++ endSentinel (txt "t")
          ++ txt " post") (txt "t") (txt "NEW")
      = .ok (txt "pre " ++ txt "NEW" ++ txt " post") :=
  c5_amended_upsert_replaces_first_region (txt "t") (txt "NEW") (txt "pre ") (txt "old")
    (txt " post") (by decide) (by decide) (by decide)

/-! ### C4: idempotence of upsert -/

/-- Counterexample to C4 as stated: on a document without the tagged region
and a block that does not itself carry the sentinels, every application
appends the block again, so the second application is not a no-op. -/
theorem c4_counterexample :
    (upsert_generated_block (txt "a") (txt "t") (txt "b")).bind
        (fun d => upsert_generated_block d (txt "t") (txt "b"))
      ≠ upsert_generated_block (txt "a") (txt "t") (txt "b") := by
  decide

theorem block_head (tag m : Text) :
    (beginSentinel tag ++ m ++ endSentinel tag)[0]? = some '<' := by
  have h1 : 0 < (beginSentinel tag).length := by
    rw [beginSentinel_cons]
    simp
  have h2 : 0 < (beginSentinel tag ++ m).length := by
    simp only [List.length_append]
    omega
  rw [List.getElem?_append_left h2, List.getElem?_append_left h1, beginSentinel_cons]
  rfl

theorem char_at_append_point (U X : Text) (c : Char) (hx : X[0]? = some c) :
    (U ++ X)[U.length]? = some c := by
  rw [List.getElem?_append_right (Nat.le_refl _), Nat.sub_self]
  exact hx

/-- C4 amended: upsert is idempotent for a complete generated block
`begin ++ m ++ end` (tag free of `'<'`, `'\'` and newline; interior free of
`'<'` and `'\'`), on every document that either contains a complete region
for the tag or contains no occurrence of the begin sentinel at all. -/
theorem c4_amended_upsert_idempotent (tag m document_text : Text)
    (htag1 : '<' ∉ tag) (htag2 : '\\' ∉ tag) (htag3 : '\n' ∉ tag)
    (hm1 : '<' ∉ m) (hm2 : '\\' ∉ m)
    (hdoc : findSub (beginSentinel tag) document_text = none ∨
      (findRegion (beginSentinel tag) (endSentinel tag) document_text).isSome = true) :
    (upsert_generated_block document_text tag
        (beginSentinel tag ++ m ++ endSentinel tag)).bind
      (fun d => upsert_generated_block d tag (beginSentinel tag ++ m ++ endSentinel tag))
      = upsert_generated_block document_text tag
          (beginSentinel tag ++ m ++ endSentinel tag) := by
  cases hr : findRegion (beginSentinel tag) (endSentinel tag) document_text with
  | some ij =>
    obtain ⟨i, j⟩ := ij
    have hbs : findSub (beginSentinel tag) document_text = some i :=
      (findRegion_some_elim _ _ _ i j hr).1
    have hres1 := upsert_region_literal document_text tag
      (beginSentinel tag ++ m ++ endSentinel tag) i j hr (bs_not_mem_block tag m htag2 hm2)
    rw [hres1]
    show upsert_generated_block
        (document_text.take i ++ (beginSentinel tag ++ m ++ endSentinel tag)
          ++ document_text.drop j) tag (beginSentinel tag ++ m ++ endSentinel tag)
      = .ok (document_text.take i ++ (beginSentinel tag ++ m ++ endSentinel tag)
          ++ document_text.drop j)
    have hilen : i < document_text.length := by
      have hpre := findSub_some_prefix _ _ i hbs
      by_contra hge
      rw [Nat.not_lt] at hge
      rw [List.drop_eq_nil_iff.mpr hge] at hpre
      have hnil := List.prefix_nil.mp hpre
      rw [beginSentinel_cons] at hnil
      cases hnil
    have hiU : (document_text.take i).length = i := by
      simp only [List.length_take]
      omega
    apply upsert_block_fixed tag m _ _ htag2 hm1 hm2
    intro k hk hpre2
    rw [hiU] at hk
    by_cases hfit : k + (beginSentinel tag).length ≤ i
    · have h1 : beginSentinel tag <+: (document_text.take i).drop k := by
        rw [List.append_assoc (document_text.take i)
          (beginSentinel tag ++ m ++ endSentinel tag) (document_text.drop j)] at hpre2
        rw [List.drop_append_of_le_length (by omega)] at hpre2
        exact prefix_of_append_of_le _ _ _ hpre2
          (by simp only [List.length_drop, hiU]; omega)
      have h2 : beginSentinel tag <+: document_text.drop k := by
        rw [List.drop_take] at h1
        exact h1.trans (List.take_prefix _ _)
      exact findSub_some_min _ _ i hbs k hk h2
    · rw [Nat.not_le] at hfit
      have hchar : ((document_text.take i ++ (beginSentinel tag ++ m ++ endSentinel tag)
          ++ document_text.drop j))[i]? = some '<' := by
        rw [List.append_assoc (document_text.take i)
          (beginSentinel tag ++ m ++ endSentinel tag) (document_text.drop j)]
        have hc := char_at_append_point (document_text.take i)
          ((beginSentinel tag ++ m ++ endSentinel tag) ++ document_text.drop j) '<'
          (by
            have hpos : 0 < (beginSentinel tag ++ m ++ endSentinel tag).length := by
              rw [beginSentinel_cons]
              simp only [List.length_append, List.length_cons]
              omega
            rw [List.getElem?_append_left hpos]
            exact block_head tag m)
        rw [hiU] at hc
        exact hc
      have hpre3 : ('<' :: (txt "!-- BEGIN GENERATED: " ++ (tag ++ txt " -->")))
          <+: ((document_text.take i ++ (beginSentinel tag ++ m ++ endSentinel tag)
            ++ document_text.drop j)).drop k := by
        rw [← beginSentinel_cons]
        exact hpre2
      refine no_inner_char '<' _ (lt_not_mem_beginTail tag htag1) _ k i hpre3 hk ?_ hchar
      have hlen : (beginSentinel tag).length
          = (txt "!-- BEGIN GENERATED: " ++ (tag ++ txt " -->")).length + 1 := by
        rw [beginSentinel_cons]
        rfl
      omega
  | none =>
    have hfb : findSub (beginSentinel tag) document_text = none := by
      rcases hdoc with h | h
      · exact h
      · rw [hr] at h
        cases h
    by_cases hstrip : pyStrip document_text = []
    · rw [upsert_strip_empty document_text tag _ hstrip]
      show upsert_generated_block
          ((beginSentinel tag ++ m ++ endSentinel tag) ++ txt "\n") tag
          (beginSentinel tag ++ m ++ endSentinel tag)
        = .ok ((beginSentinel tag ++ m ++ endSentinel tag) ++ txt "\n")
      have hfix := upsert_block_fixed tag m [] (txt "\n") htag2 hm1 hm2
        (fun k hk => by simp at hk)
      simpa using hfix
    · rw [upsert_append_branch document_text tag _ hr hstrip]
      show upsert_generated_block
          (pyRstrip document_text ++ txt "\n\n" ++ (beginSentinel tag ++ m ++ endSentinel tag)
            ++ txt "\n") tag (beginSentinel tag ++ m ++ endSentinel tag)
        = .ok (pyRstrip document_text ++ txt "\n\n"
            ++ (beginSentinel tag ++ m ++ endSentinel tag) ++ txt "\n")
      have hU : ∀ k < (pyRstrip document_text ++ txt "\n\n").length,
          ¬ beginSentinel tag <+: ((pyRstrip document_text ++ txt "\n\n")
            ++ (beginSentinel tag ++ m ++ endSentinel tag) ++ txt "\n").drop k := by
        intro k hk hpre
        have hklt : k < (pyRstrip document_text).length + 2 := by
          simpa [List.length_append] using hk
        have hassoc2 : (pyRstrip document_text ++ txt "\n\n")
            ++ (beginSentinel tag ++ m ++ endSentinel tag) ++ txt "\n"
            = pyRstrip document_text ++ (txt "\n\n"
              ++ ((beginSentinel tag ++ m ++ endSentinel tag) ++ txt "\n")) := by
          simp [List.append_assoc]
        by_cases hfit : k + (beginSentinel tag).length ≤ (pyRstrip document_text).length
        · have h1 : beginSentinel tag <+: (pyRstrip document_text).drop k := by
            rw [hassoc2] at hpre
            rw [List.drop_append_of_le_length (by omega)] at hpre
            exact prefix_of_append_of_le _ _ _ hpre
              (by simp only [List.length_drop]; omega)
          have h2 : beginSentinel tag <+: document_text.drop k := by
            obtain ⟨vtail, hv⟩ := pyRstrip_prefix document_text
            rw [← hv, List.drop_append_of_le_length (by omega)]
            exact h1.trans (List.prefix_append _ _)
          exact findSub_none_not_prefix _ _ hfb k h2
        · rw [Nat.not_le] at hfit
          by_cases hkR : k < (pyRstrip document_text).length
          · have hchar : ((pyRstrip document_text ++ txt "\n\n")
                ++ (beginSentinel tag ++ m ++ endSentinel tag)
                ++ txt "\n")[(pyRstrip document_text).length]? = some '\n' := by
              rw [hassoc2]
              exact char_at_append_point _ _ '\n' rfl
            have hmem := char_of_occurrence (beginSentinel tag) _ k
              (pyRstrip document_text).length hpre (by omega) (by omega) '\n' hchar
            exact nl_not_mem_beginSentinel tag htag3 hmem
          · rw [Nat.not_lt] at hkR
            have hchar : ((pyRstrip document_text ++ txt "\n\n")
                ++ (beginSentinel tag ++ m ++ endSentinel tag) ++ txt "\n")[k]?
                = some '\n' := by
              rw [hassoc2, List.getElem?_append_right (by omega)]
              rcases (show k - (pyRstrip document_text).length = 0
                  ∨ k - (pyRstrip document_text).length = 1 by omega) with h0 | h0 <;>
                rw [h0] <;> rfl
            have h0 := prefix_drop_char (beginSentinel tag) _ k 0 hpre
              (by rw [beginSentinel_cons]; simp)
            rw [Nat.add_zero, hchar, beginSentinel_cons] at h0
            simp at h0
      have hfix := upsert_block_fixed tag m (pyRstrip document_text ++ txt "\n\n")
        (txt "\n") htag2 hm1 hm2 hU
      simpa [List.append_assoc] using hfix

/-- Witness for the amended C4: a document that already holds a region, and
a document with no sentinel occurrence at all. -/
theorem c4_amended_upsert_idempotent_witness :
    ((upsert_generated_block
        (txt "x" ++ beginSentinel (txt "t") ++ txt "old" ++ endSentinel (txt "t") ++ txt "y")
        (txt "t") (beginSentinel (txt "t") ++ txt "mid" ++ endSentinel (txt "t"))).bind
      (fun d => upsert_generated_block d (txt "t")
        (beginSentinel (txt "t") ++ txt "mid" ++ endSentinel (txt "t")))
      = upsert_generated_block
        (txt "x" ++ beginSentinel (txt "t") ++ txt "old" ++ endSentinel (txt "t") ++ txt "y")
        (txt "t") (beginSentinel (txt "t") ++ txt "mid" ++ endSentinel (txt "t"))) ∧
    ((upsert_generated_block (txt "plain document")
        (txt "t") (beginSentinel (txt "t") ++ txt "mid" ++ endSentinel (txt "t"))).bind
      (fun d => upsert_generated_block d (txt "t")
        (beginSentinel (txt "t") ++ txt "mid" ++ endSentinel (txt "t")))
      = upsert_generated_block (txt "plain document")
        (txt "t") (beginSentinel (txt "t") ++ txt "mid" ++ endSentinel (txt "t"))) :=
  ⟨c4_amended_upsert_idempotent (txt "t") (txt "mid")
      (txt "x" ++ beginSentinel (txt "t") ++ txt "old" ++ endSentinel (txt "t") ++ txt "y")
      (by decide) (by decide) (by decide) (by decide) (by decide)
      (Or.inr (by decide)),
   c4_amended_upsert_idempotent (txt "t") (txt "mid") (txt "plain document")
      (by decide) (by decide) (by decide) (by decide) (by decide)
      (Or.inl (by decide))⟩

end SpecLock

